import Mathlib

/-!
# Inventory aggregation backend: embedding and verified properties

Shallow embedding of `src/inventory.js` (`calculateStockStatus`,
`processInventoryData`, `fetchPage`, `fetchInventoryData`) and of the cache of
`src/index.js` (`inventoryCache`, `revalidateCache`, the interval callback and
the two request handlers).

Modelling conventions.

* A JavaScript number is an exact rational (`ℚ`). The records come from
  `JSON.parse`, so `NaN` and the infinities never enter; the one place
  where `processInventoryData` itself produces `Infinity`
  (`daysOfStockRemaining`) is modelled by `none`. Arithmetic on these numbers is
  exact, which is what the comparisons, guards and counts of the program need.
* Where the rounding of a division decides the result, in the day classes of
  `calculateStockStatus`, the function is also given with its divisions in
  binary64, rounded to nearest with ties to even
  (`calculateStockStatusBinary64`, over `JsNumber`).
* An optional JSON field is an `Option`; `undefined` and `null` are `none`.
* `x || d` on a number is `jsOr`: the default replaces an absent value and `0`.
* Strings are Lean strings; `split(' ')` works on their character lists.
* `Array.prototype.sort` is the stable sort the language standard prescribes.
-/

namespace Inventory

/-! ## JavaScript primitives -/

/-- The expression `x || d` for an optional numeric field: `undefined`, `null`
and `0` are falsy and give the default. -/
def jsOr (x : Option ℚ) (d : ℚ) : ℚ :=
  match x with
  | some v => if v = 0 then d else v
  | none => d

/-- The expression `s || t` for an optional string `s`: `undefined`, `null` and
the empty string are falsy. -/
def jsOrStr (s : Option String) (t : String) : String :=
  match s with
  | some v => if v = "" then t else v
  | none => t

/-- The expression `s || t` where both sides may be absent. -/
def jsOrStrOpt (s t : Option String) : Option String :=
  match s with
  | some v => if v = "" then t else some v
  | none => t

/-- The function `Math.round`: nearest integer, halves rounded up. -/
def mathRound (x : ℚ) : ℤ := Rat.floor (x + 1 / 2)

/-- The expression `Math.round(x * 100) / 100`. -/
def round2 (x : ℚ) : ℚ := (mathRound (x * 100) : ℚ) / 100

/-- Insertion of one element into a list already ordered by the comparator:
`a` goes in front of the first `b` with `cmp a b ≤ 0`. -/
def orderedInsertBy {α : Type} (cmp : α → α → ℚ) (a : α) : List α → List α
  | [] => [a]
  | b :: l => if cmp a b ≤ 0 then a :: b :: l else b :: orderedInsertBy cmp a l

/-- The method `Array.prototype.sort(cmp)` on a copy of the array. The standard
requires a stable sort; for a comparator that is a consistent ordering every
stable sort returns the same array, here computed by insertion from the right. -/
def jsSort {α : Type} (cmp : α → α → ℚ) : List α → List α
  | [] => []
  | a :: l => orderedInsertBy cmp a (jsSort cmp l)

/-- The method `String.prototype.split(' ')` on the characters of a string: the
pieces between consecutive space characters, empty pieces included. -/
def splitSpace : List Char → List (List Char)
  | [] => [[]]
  | c :: cs =>
    if c = ' ' then [] :: splitSpace cs
    else
      match splitSpace cs with
      | [] => [[c]]
      | p :: ps => (c :: p) :: ps

/-! ## Data model -/

/-- The `inventory` sub-record of a sellable. -/
structure RawInventory where
  physical_stock_level_at_all_warehouses : Option ℚ
  allocated_stock_level_at_all_warehouses : Option ℚ
  available_stock_level_at_all_warehouses : Option ℚ
  deriving DecidableEq

/-- A sellable variant of a product, as delivered by the upstream API. -/
structure RawSellable where
  inventory : Option RawInventory
  total_quantity_sold : Option ℚ
  min_reorder_level : Option ℚ
  cost_price : Option ℚ
  price : Option ℚ
  profit : Option ℚ
  margin : Option ℚ
  full_title : Option String
  sku_code : Option String
  image_url : Option String
  deriving DecidableEq

/-- A product record, as delivered by the upstream API. -/
structure RawProduct where
  id : ℤ
  title : String
  thumbnail_url : Option String
  sellables : List RawSellable
  deriving DecidableEq

/-- The object built for one sellable by `processInventoryData`. -/
structure EnrichedItem where
  id : ℤ
  title : String
  sku : Option String
  price : ℚ
  costPrice : ℚ
  stockLevel : ℚ
  allocatedStock : ℚ
  availableStock : ℚ
  totalSold : ℚ
  profit : ℚ
  margin : ℚ
  imageUrl : Option String
  isLowStock : Bool
  isOutOfStock : Bool
  reorderLevel : ℚ
  turnoverRate : ℚ
  stockValue : ℚ
  daysOfStockRemaining : Option ℤ
  status : String
  deriving DecidableEq

/-- One entry of `stockStatusDistribution`. -/
structure StatusEntry where
  name : String
  value : ℕ
  color : String
  deriving DecidableEq

/-- The value stored per key in `categoryMap`. -/
structure CategoryData where
  stockLevel : ℚ
  value : ℚ
  deriving DecidableEq

/-- One entry of `topCategories`. -/
structure CategoryEntry where
  name : String
  stockLevel : ℚ
  value : ℚ
  deriving DecidableEq

/-- The object returned by `processInventoryData`. -/
structure Snapshot where
  products : List EnrichedItem
  lowStockProducts : List EnrichedItem
  outOfStockProducts : List EnrichedItem
  topSellingProducts : List EnrichedItem
  totalProducts : ℕ
  totalStockValue : ℚ
  lowStockCount : ℕ
  outOfStockCount : ℕ
  averageTurnoverRate : ℚ
  stockStatusDistribution : List StatusEntry
  topCategories : List CategoryEntry
  deriving DecidableEq

/-- The constant table `STATUS_COLORS`. -/
def STATUS_COLORS (status : String) : String :=
  if status = "critical" then "#ef4444"
  else if status = "low" then "#f97316"
  else if status = "adequate" then "#eab308"
  else if status = "good" then "#10b981"
  else "#3b82f6"

/-! ## Status classification -/

/-- The function `calculateStockStatus(available, sold, reorderLevel)`, with its
two divisions taken exactly. The guards, the set of labels and the order of
the classes do not depend on rounding; `calculateStockStatusBinary64` below
rounds the divisions as the program does. -/
def calculateStockStatus (available sold reorderLevel : ℚ) : String :=
  if available = 0 then "critical"
  else if available ≤ reorderLevel then "low"
  else
    let avgDailySales := sold / 365
    let daysOfStock := available / (if avgDailySales = 0 then 1 / 10 else avgDailySales)
    if daysOfStock < 7 then "low"
    else if daysOfStock < 30 then "adequate"
    else if daysOfStock < 90 then "good"
    else "overstock"

/-! ## Status classification in binary64 -/

/-- A JavaScript number by its value: a finite double (its exact value), an
infinity, or `NaN`. The sign of a zero is not kept. -/
inductive JsNumber where
  | finite (q : ℚ)
  | posInfinity
  | negInfinity
  | nan
  deriving DecidableEq

/-- The integer nearest to `n / d`, a tie going to the even one. -/
def roundHalfEven (n d : ℕ) : ℕ :=
  let q := n / d
  let r := n % d
  if 2 * r < d then q
  else if d < 2 * r then q + 1
  else if q % 2 = 0 then q else q + 1

/-- The number of halvings that bring `n` below 2, at most `fuel` of them. -/
def log2Fuel : ℕ → ℕ → ℕ
  | 0, _ => 0
  | fuel + 1, n => if n < 2 then 0 else log2Fuel fuel (n / 2) + 1

/-- The exponent of the highest power of two not above `n`, for `n ≥ 1`. -/
def floorLog2 (n : ℕ) : ℕ := log2Fuel n n

/-- The exponent `e` with `2 ^ e ≤ n / d < 2 ^ (e + 1)`, for positive `n`, `d`. -/
def floorLog2Ratio (n d : ℕ) : ℤ :=
  let e : ℤ := (floorLog2 n : ℤ) - (floorLog2 d : ℤ)
  if d * 2 ^ e.toNat ≤ n * 2 ^ (-e).toNat then e else e - 1

/-- The binary64 number nearest to `± n / d` (`d > 0`), ties to even: 53
significant bits, least exponent -1074 (subnormal numbers included), and an
infinity once the rounded magnitude reaches `2 ^ 1024`. -/
def binary64Round (negative : Bool) (n d : ℕ) : JsNumber :=
  if n = 0 then .finite 0
  else
    let e := floorLog2Ratio n d
    let t := max e (-1022) - 52
    let m := roundHalfEven (n * 2 ^ (-t).toNat) (d * 2 ^ t.toNat)
    if 1024 ≤ e ∨ (e = 1023 ∧ m = 2 ^ 53) then
      if negative then .negInfinity else .posInfinity
    else
      .finite (mkRat ((if negative then -1 else 1) * (m * 2 ^ t.toNat : ℕ)) (2 ^ (-t).toNat))

/-- The operator `/` on two finite numbers: the exact quotient rounded to
binary64. A zero divisor (taken as `+0`) gives `NaN` or an infinity. -/
def binary64Div (a b : ℚ) : JsNumber :=
  if b = 0 then
    if a = 0 then .nan else if a < 0 then .negInfinity else .posInfinity
  else
    binary64Round (decide (a.num < 0) != decide (b.num < 0)) (a.num.natAbs * b.den)
      (a.den * b.num.natAbs)

/-- The operator `/` on JavaScript numbers. -/
def JsNumber.div : JsNumber → JsNumber → JsNumber
  | .finite a, .finite b => binary64Div a b
  | .finite _, .posInfinity => .finite 0
  | .finite _, .negInfinity => .finite 0
  | .posInfinity, .finite b => if b < 0 then .negInfinity else .posInfinity
  | .negInfinity, .finite b => if b < 0 then .posInfinity else .negInfinity
  | _, _ => .nan

/-- The falsy numbers: zero and `NaN`. -/
def JsNumber.isFalsy : JsNumber → Bool
  | .finite q => decide (q = 0)
  | .nan => true
  | _ => false

/-- The expression `x || d` on numbers. -/
def JsNumber.orElse (x d : JsNumber) : JsNumber := if x.isFalsy then d else x

/-- The comparison `x < c` with a finite `c`; false for `NaN`. -/
def JsNumber.lt (x : JsNumber) (c : ℚ) : Bool :=
  match x with
  | .finite q => decide (q < c)
  | .negInfinity => true
  | _ => false

/-- The literal `0.1`: the binary64 number nearest to one tenth. -/
def binary64Tenth : JsNumber := binary64Div 1 10

/-- The function `calculateStockStatus(available, sold, reorderLevel)` on finite
numbers, with both divisions in binary64 as the program computes them. -/
def calculateStockStatusBinary64 (available sold reorderLevel : ℚ) : String :=
  if available = 0 then "critical"
  else if available ≤ reorderLevel then "low"
  else
    let avgDailySales := binary64Div sold 365
    let daysOfStock := (JsNumber.finite available).div (avgDailySales.orElse binary64Tenth)
    if daysOfStock.lt 7 then "low"
    else if daysOfStock.lt 30 then "adequate"
    else if daysOfStock.lt 90 then "good"
    else "overstock"

/-! ## Aggregation -/

/-- The body of the inner `map` callback of `processInventoryData`: the item
built for one sellable of one product. -/
def processSellable (product : RawProduct) (sellable : RawSellable) : EnrichedItem :=
  let stockLevel :=
    jsOr (sellable.inventory.bind fun i => i.physical_stock_level_at_all_warehouses) 0
  let allocatedStock :=
    jsOr (sellable.inventory.bind fun i => i.allocated_stock_level_at_all_warehouses) 0
  let availableStock :=
    jsOr (sellable.inventory.bind fun i => i.available_stock_level_at_all_warehouses) 0
  let totalSold := jsOr sellable.total_quantity_sold 0
  let reorderLevel := jsOr sellable.min_reorder_level 5
  let turnoverRate := if stockLevel > 0 then totalSold / stockLevel * 100 else 0
  let avgDailySales := totalSold / 365
  let daysOfStockRemaining : Option ℚ :=
    if avgDailySales > 0 then some (availableStock / avgDailySales) else none
  let stockValue := availableStock * jsOr sellable.cost_price 0
  let status := calculateStockStatus availableStock totalSold reorderLevel
  { id := product.id
    title := jsOrStr sellable.full_title product.title
    sku := sellable.sku_code
    price := jsOr sellable.price 0
    costPrice := jsOr sellable.cost_price 0
    stockLevel := stockLevel
    allocatedStock := allocatedStock
    availableStock := availableStock
    totalSold := totalSold
    profit := jsOr sellable.profit 0
    margin := jsOr sellable.margin 0
    imageUrl := jsOrStrOpt sellable.image_url product.thumbnail_url
    isLowStock := decide (availableStock ≤ reorderLevel) && decide (availableStock > 0)
    isOutOfStock := decide (availableStock = 0)
    reorderLevel := reorderLevel
    turnoverRate := round2 turnoverRate
    stockValue := round2 stockValue
    daysOfStockRemaining := daysOfStockRemaining.map mathRound
    status := status }

/-- The expression `p.title.split(' ')[0] || 'Other'`. -/
def categoryOf (title : String) : String :=
  match (splitSpace title.data).head? with
  | some piece => if piece = [] then "Other" else String.mk piece
  | none => "Other"

/-- The method `Map.prototype.get` followed by `|| { stockLevel: 0, value: 0 }`. -/
def categoryGet (m : List (String × CategoryData)) (key : String) : CategoryData :=
  match m.find? fun e => e.1 = key with
  | some e => e.2
  | none => { stockLevel := 0, value := 0 }

/-- The method `Map.prototype.set`: an existing key keeps its position, a new
key is appended. -/
def categorySet (m : List (String × CategoryData)) (key : String) (d : CategoryData) :
    List (String × CategoryData) :=
  match m with
  | [] => [(key, d)]
  | e :: rest => if e.1 = key then (key, d) :: rest else e :: categorySet rest key d

/-- The body of the `forEach` callback that fills `categoryMap`. -/
def categoryStep (m : List (String × CategoryData)) (p : EnrichedItem) :
    List (String × CategoryData) :=
  let category := categoryOf p.title
  let existing := categoryGet m category
  categorySet m category
    { stockLevel := existing.stockLevel + p.availableStock
      value := existing.value + p.stockValue }

/-- The local `categoryMap` of `processInventoryData` after its `forEach`: the
entries in insertion order. -/
def categoryMap (processedProducts : List EnrichedItem) : List (String × CategoryData) :=
  processedProducts.foldl categoryStep []

/-- The function `processInventoryData(products)`. -/
def processInventoryData (products : List RawProduct) : Snapshot :=
  let processedProducts :=
    products.flatMap fun product => product.sellables.map fun sellable =>
      processSellable product sellable
  let lowStockProducts := processedProducts.filter fun p => p.isLowStock
  let outOfStockProducts := processedProducts.filter fun p => p.isOutOfStock
  let topSellingProducts :=
    (jsSort (fun a b => b.totalSold - a.totalSold) processedProducts).take 20
  let totalStockValue := processedProducts.foldl (fun sum p => sum + p.stockValue) (0 : ℚ)
  let count := fun (s : String) =>
    (processedProducts.filter fun p => decide (p.status = s)).length
  let stockStatusDistribution :=
    ([ { name := "Critical (Out of Stock)", value := count "critical",
         color := STATUS_COLORS "critical" },
       { name := "Low Stock", value := count "low", color := STATUS_COLORS "low" },
       { name := "Adequate", value := count "adequate", color := STATUS_COLORS "adequate" },
       { name := "Good", value := count "good", color := STATUS_COLORS "good" },
       { name := "Overstock", value := count "overstock",
         color := STATUS_COLORS "overstock" } ] : List StatusEntry).filter
      fun s => decide (s.value > 0)
  let avgTurnoverRate :=
    if processedProducts.length > 0 then
      processedProducts.foldl (fun sum p => sum + p.turnoverRate) (0 : ℚ) / processedProducts.length
    else 0
  let topCategories :=
    ((jsSort (fun (a b : CategoryEntry) => b.value - a.value)
      ((categoryMap processedProducts).map fun e =>
        { name := e.1, stockLevel := e.2.stockLevel, value := e.2.value })).take 10)
  { products := processedProducts
    lowStockProducts := lowStockProducts
    outOfStockProducts := outOfStockProducts
    topSellingProducts := topSellingProducts
    totalProducts := processedProducts.length
    totalStockValue := round2 totalStockValue
    lowStockCount := lowStockProducts.length
    outOfStockCount := outOfStockProducts.length
    averageTurnoverRate := round2 avgTurnoverRate
    stockStatusDistribution := stockStatusDistribution
    topCategories := topCategories }

/-! ## Paginated fetch -/

/-- The value of `parseInt(...)`: an integer, or `NaN` for an unparseable text. -/
inductive JsInt where
  | nan
  | int (n : ℤ)
  deriving DecidableEq

/-- The comparison `totalPages <= 1`; every comparison with `NaN` is false. -/
def JsInt.leOne : JsInt → Bool
  | .nan => false
  | .int n => decide (n ≤ 1)

/-- The array length taken from `{ length: totalPages - 1 }` by `Array.from`:
`NaN` and negative values give length `0`. -/
def JsInt.predLength : JsInt → ℕ
  | .nan => 0
  | .int n => (n - 1).toNat

/-- What one `fetch` of a page yields: the `ok` flag of the response, its parsed
JSON body, and `parseInt` of the `X-Total-Pages-Count` header (`none` when the
header is absent or empty, so that `|| '1'` applies). -/
structure Response (α : Type) where
  ok : Bool
  json : List α
  totalPagesCount : Option JsInt

/-- The errors thrown by the fetcher. -/
inductive FetchError where
  | failedToFetchProducts
  | failedToFetchPage (pageNumber : ℕ)
  deriving DecidableEq

/-- The function `fetchPage(pageNumber)` against an upstream that answers the
request for page `n` with `upstream n`. -/
def fetchPage {α : Type} (upstream : ℕ → Response α) (pageNumber : ℕ) :
    Except FetchError (List α) :=
  let response := upstream pageNumber
  if !response.ok then .error (.failedToFetchPage pageNumber)
  else .ok response.json

/-- The function `Promise.all`: the results in the order of the given promises,
or a rejection when one of them rejects. Which rejection wins depends on
completion order in the program; here it is the first in array order. -/
def promiseAll {ε β : Type} : List (Except ε β) → Except ε (List β)
  | [] => .ok []
  | .error e :: _ => .error e
  | .ok b :: rest =>
    match promiseAll rest with
    | .error e => .error e
    | .ok bs => .ok (b :: bs)

/-- The `for (let i = 0; i < remainingPages.length; i += batchSize)` loop of
`fetchInventoryData`, entered at index `i` with accumulator `allProducts`.
`fuel` bounds the number of iterations; `none` means it ran out before the
loop condition failed. -/
def fetchBatches {α : Type} (upstream : ℕ → Response α) (remainingPages : List ℕ)
    (batchSize : ℕ) : ℕ → ℕ → List α → Option (Except FetchError (List α))
  | fuel, i, allProducts =>
    if i < remainingPages.length then
      match fuel with
      | 0 => none
      | fuel + 1 =>
        let batch := (remainingPages.drop i).take batchSize
        match promiseAll (batch.map (fetchPage upstream)) with
        | .error e => some (.error e)
        | .ok batchResults =>
          fetchBatches upstream remainingPages batchSize fuel (i + batchSize)
            (batchResults.foldl (fun acc pageData => acc ++ pageData) allProducts)
    else some (.ok allProducts)

/-- The function `fetchInventoryData()`; `fuel` bounds the iterations of its
batch loop. -/
def fetchInventoryData {α : Type} (upstream : ℕ → Response α) (fuel : ℕ) :
    Option (Except FetchError (List α)) :=
  let firstPageResponse := upstream 1
  if !firstPageResponse.ok then some (.error .failedToFetchProducts)
  else
    let firstPageData := firstPageResponse.json
    let totalPages := firstPageResponse.totalPagesCount.getD (.int 1)
    if totalPages.leOne then some (.ok firstPageData)
    else
      let remainingPages := (List.range totalPages.predLength).map fun i => i + 2
      let batchSize := 5
      fetchBatches upstream remainingPages batchSize fuel 0 firstPageData

/-! ## Specification-side definitions -/

/-- The classification of spec section 4.2, step 4: `daysOfStock < 7` is
"low", `< 30` is "adequate", `< 90` is "good", anything else "overstock". -/
def specClassifyDays (daysOfStock : ℚ) : String :=
  if daysOfStock < 7 then "low"
  else if daysOfStock < 30 then "adequate"
  else if daysOfStock < 90 then "good"
  else "overstock"

/-- The quantity of spec section 4.2, step 3:
`daysOfStock = available / max(avgDailySales, 0.1)` with
`avgDailySales = sold / 365`. -/
def specDaysOfStock (available sold : ℚ) : ℚ :=
  available / max (sold / 365) (1 / 10)

/-- The classification of spec section 4.2, step 4, on a JavaScript number. -/
def specClassifyDaysJs (daysOfStock : JsNumber) : String :=
  if daysOfStock.lt 7 then "low"
  else if daysOfStock.lt 30 then "adequate"
  else if daysOfStock.lt 90 then "good"
  else "overstock"

/-- The function `Math.max` on two numbers. -/
def jsMax : JsNumber → JsNumber → JsNumber
  | .nan, _ => .nan
  | _, .nan => .nan
  | .posInfinity, _ => .posInfinity
  | _, .posInfinity => .posInfinity
  | .negInfinity, y => y
  | x, .negInfinity => x
  | .finite a, .finite b => if a < b then .finite b else .finite a

/-- The quantity of spec section 4.2, step 3, computed in binary64:
`available / max(sold / 365, 0.1)`. -/
def specDaysOfStockBinary64 (available sold : ℚ) : JsNumber :=
  (JsNumber.finite available).div (jsMax (binary64Div sold 365) binary64Tenth)

/-! ## Concrete inputs used in examples -/

/-- A sellable with every optional field absent. -/
def bareSellable : RawSellable :=
  { inventory := none, total_quantity_sold := none, min_reorder_level := none,
    cost_price := none, price := none, profit := none, margin := none,
    full_title := none, sku_code := none, image_url := none }

/-- A sellable with the given available stock, quantity sold and minimum
reorder level, and nothing else. -/
def stockSellable (available sold reorder : Option ℚ) : RawSellable :=
  { bareSellable with
    inventory := some
      { physical_stock_level_at_all_warehouses := none
        allocated_stock_level_at_all_warehouses := none
        available_stock_level_at_all_warehouses := available }
    total_quantity_sold := sold
    min_reorder_level := reorder }

/-- A product with the given id, title and sellables. -/
def mkProduct (id : ℤ) (title : String) (sellables : List RawSellable) : RawProduct :=
  { id := id, title := title, thumbnail_url := none, sellables := sellables }

/-- The five status labels counted by `stockStatusDistribution`. -/
def statusLabels : List String := ["critical", "low", "adequate", "good", "overstock"]

/-- Spec section 4.2, `topSellingProducts`: `sorted` is the stable descending
sort of `items` by `key` when it is a rearrangement of `items`, non-increasing in
`key`, and lists the items of every single key value in their order in `items`. -/
def IsStableSortDescBy {α : Type} (key : α → ℚ) (sorted items : List α) : Prop :=
  sorted.Perm items ∧
    sorted.Pairwise (fun a b => key b ≤ key a) ∧
    ∀ v : ℚ, sorted.filter (fun x => decide (key x = v)) =
      items.filter (fun x => decide (key x = v))

/-- Spec section 4.2, "flatten product × sellable": the (product, sellable)
pairs of the input, in product order and then sellable order within a product. -/
def specPairs (products : List RawProduct) : List (RawProduct × RawSellable) :=
  match products with
  | [] => []
  | product :: rest =>
    (product.sellables.map fun sellable => (product, sellable)) ++ specPairs rest

/-- Spec section 4.2, `topCategories`: the first whitespace-delimited token of
a title, `none` when the title has no tokens. -/
def specFirstToken (title : String) : Option String :=
  let token := (title.data.dropWhile Char.isWhitespace).takeWhile fun c => !c.isWhitespace
  if token = [] then none else some (String.mk token)

/-- The characters of a title in front of its first space character (all of
them when it has no space). -/
def beforeFirstSpace (title : String) : List Char :=
  title.data.takeWhile fun c => decide (c ≠ ' ')

/-- An upstream with 7 pages that all succeed; page `n` holds the records
`n` and `10 * n`. -/
def sevenPages : ℕ → Response ℕ := fun n =>
  { ok := true, json := [n, 10 * n], totalPagesCount := some (.int 7) }

/-- An upstream that announces 12 pages and answers page 9 with a failure
status; page `n` otherwise holds the records `n` and `10 * n`. -/
def pageNineFails : ℕ → Response ℕ := fun n =>
  { ok := decide (n ≠ 9), json := [n, 10 * n], totalPagesCount := some (.int 12) }

/-- The position of a status in the order
critical < low < adequate < good < overstock. -/
def statusRank (status : String) : ℕ :=
  if status = "critical" then 0
  else if status = "low" then 1
  else if status = "adequate" then 2
  else if status = "good" then 3
  else 4

/-! ## Cache and request handlers (`src/index.js`)

The server is single-threaded: a handler runs without interruption up to its
`await fetchInventoryData()`, and its remainder runs without interruption when
that promise settles. Each such segment is one function below; a call in
flight is an entry of `Server.pending`. -/

/-- The type of the object `inventoryCache`; timestamps are milliseconds. -/
structure InventoryCache where
  data : Option Snapshot
  timestamp : Option ℤ
  ttl : ℤ
  isRevalidating : Bool
  deriving DecidableEq

/-- The initial value of `inventoryCache`. -/
def inventoryCache : InventoryCache :=
  { data := none, timestamp := none, ttl := 240 * 60 * 1000, isRevalidating := false }

/-- How `await fetchInventoryData()` followed by `processInventoryData(data)`
can go: the fetch rejects, or it resolves with a value on which the
aggregation throws, or it resolves with well-formed records. -/
inductive FetchOutcome where
  | rejected (e : FetchError)
  | malformed
  | resolved (data : List RawProduct)

/-- The error caught by a `catch` block of `src/index.js`. -/
inductive HandlerError where
  | fetchFailed (e : FetchError)
  | aggregationFailed
  deriving DecidableEq

/-- A call suspended at its `await fetchInventoryData()`: `revalidateCache`, or
the handler of `GET /api/inventory` with the `now` it read on entry. -/
inductive Pending where
  | revalidateCache
  | getInventory (now : ℤ)
  deriving DecidableEq

/-- The state of the server: the cache object, the calls in flight, and the
number of calls of `fetchInventoryData` made so far. -/
structure Server where
  cache : InventoryCache
  pending : List Pending
  fetchCalls : ℕ
  deriving DecidableEq

/-- The JSON answer of `GET /api/inventory`: served from the cache, freshly
fetched, or the status 500 answer. -/
inductive GetReply where
  | cached (data : Option Snapshot) (stale : Bool) (revalidating : Bool) (cachedAt : ℤ)
      (cacheAgeSeconds : ℤ)
  | fetched (data : Snapshot) (cachedAt : ℤ)
  | failed (error : HandlerError)
  deriving DecidableEq

/-- The JSON answer of `POST /api/inventory/revalidate`. -/
structure PostReply where
  isRevalidating : Bool
  deriving DecidableEq

/-- The function `revalidateCache()` up to its `await`: nothing when the flag
is set, otherwise the flag is set and `fetchInventoryData()` is called. -/
def revalidateCache (s : Server) : Server :=
  if s.cache.isRevalidating then s
  else
    { cache := { s.cache with isRevalidating := true }
      pending := s.pending ++ [Pending.revalidateCache]
      fetchCalls := s.fetchCalls + 1 }

/-- The rest of `revalidateCache()` once the awaited fetch has settled, at clock
time `now`: the new cache, and the error with which the promise of
`revalidateCache()` rejects (`none`: it resolves). -/
def revalidateCacheResume (outcome : FetchOutcome) (now : ℤ) (cache : InventoryCache) :
    InventoryCache × Option HandlerError :=
  match outcome with
  | .resolved data =>
    ({ cache with
        data := some (processInventoryData data)
        timestamp := some now
        isRevalidating := false }, none)
  | .rejected _ => ({ cache with isRevalidating := false }, none)
  | .malformed => ({ cache with isRevalidating := false }, none)

/-- The truthiness of `inventoryCache.timestamp`. -/
def timestampTruthy (timestamp : Option ℤ) : Bool :=
  match timestamp with
  | some t => decide (t ≠ 0)
  | none => false

/-- The callback of `setInterval`, run at clock time `now`. -/
def autoRevalidate (now : ℤ) (s : Server) : Server :=
  if s.cache.data.isSome && timestampTruthy s.cache.timestamp &&
      decide (now - s.cache.timestamp.getD 0 ≥ s.cache.ttl) then
    revalidateCache s
  else s

/-- The handler of `GET /api/inventory` entered at clock time `now`, up to its
answer or its `await`: with a cache it answers at once (after triggering a
revalidation when stale and none is running); without one it calls
`fetchInventoryData()` and is suspended, with no answer yet. -/
def getInventory (now : ℤ) (s : Server) : Server × Option GetReply :=
  if s.cache.data.isSome then
    let cacheAge := now - s.cache.timestamp.getD 0
    let isCacheStale := decide (cacheAge ≥ s.cache.ttl)
    let s1 := if isCacheStale && !s.cache.isRevalidating then revalidateCache s else s
    (s1, some (GetReply.cached s1.cache.data isCacheStale s1.cache.isRevalidating
      (s1.cache.timestamp.getD 0) (mathRound ((cacheAge : ℚ) / 1000))))
  else
    ({ cache := s.cache
       pending := s.pending ++ [Pending.getInventory now]
       fetchCalls := s.fetchCalls + 1 }, none)

/-- The rest of the handler of `GET /api/inventory` once the awaited fetch has
settled; `now` is the time read on entry. -/
def getInventoryResume (now : ℤ) (outcome : FetchOutcome) (cache : InventoryCache) :
    InventoryCache × GetReply :=
  match outcome with
  | .resolved data =>
    let processedData := processInventoryData data
    ({ cache with data := some processedData, timestamp := some now },
      GetReply.fetched processedData now)
  | .rejected e => (cache, GetReply.failed (.fetchFailed e))
  | .malformed => (cache, GetReply.failed .aggregationFailed)

/-- The handler of `POST /api/inventory/revalidate`. -/
def postRevalidate (s : Server) : Server × PostReply :=
  let s1 := revalidateCache s
  (s1, { isRevalidating := s1.cache.isRevalidating })

/-- What can happen to the server: a request, a timer tick, or the settling of
the fetch awaited by the `i`-th call in flight. -/
inductive Event where
  | get (now : ℤ)
  | post
  | tick (now : ℤ)
  | settle (i : ℕ) (outcome : FetchOutcome) (now : ℤ)

/-- One uninterrupted segment of execution. -/
def step (s : Server) : Event → Server
  | .get now => (getInventory now s).1
  | .post => (postRevalidate s).1
  | .tick now => autoRevalidate now s
  | .settle i outcome now =>
    match s.pending[i]? with
    | none => s
    | some Pending.revalidateCache =>
      { cache := (revalidateCacheResume outcome now s.cache).1
        pending := s.pending.eraseIdx i
        fetchCalls := s.fetchCalls }
    | some (Pending.getInventory entered) =>
      { cache := (getInventoryResume entered outcome s.cache).1
        pending := s.pending.eraseIdx i
        fetchCalls := s.fetchCalls }

/-- The server at process start. -/
def initialServer : Server :=
  { cache := inventoryCache, pending := [], fetchCalls := 0 }

/-- The server after a sequence of events. -/
def run (events : List Event) : Server := events.foldl step initialServer

/-- The states the server can be in. -/
def Reachable (s : Server) : Prop := ∃ events, run events = s

/-- The number of `revalidateCache` calls in flight. -/
def revalidationsInFlight (s : Server) : ℕ := s.pending.count Pending.revalidateCache

/-- The outcomes after which no snapshot is produced. -/
def FetchOutcome.isFailure : FetchOutcome → Bool
  | .resolved _ => false
  | .rejected _ => true
  | .malformed => true

/-- The invariant of the server: the TTL is 240 minutes, snapshot and timestamp
are present together or absent together, and the flag counts the
`revalidateCache` calls in flight. -/
def CacheInvariant (s : Server) : Prop :=
  s.cache.ttl = 14400000 ∧
    (s.cache.data = none ↔ s.cache.timestamp = none) ∧
    revalidationsInFlight s = if s.cache.isRevalidating then 1 else 0

/-! ## Helper lemmas -/

theorem mem_products_iff (products : List RawProduct) (item : EnrichedItem) :
    item ∈ (processInventoryData products).products ↔
      ∃ product ∈ products, ∃ sellable ∈ product.sellables,
        item = processSellable product sellable := by
  simp only [processInventoryData, List.mem_flatMap, List.mem_map]
  constructor
  · rintro ⟨product, hp, sellable, hs, rfl⟩
    exact ⟨product, hp, sellable, hs, rfl⟩
  · rintro ⟨product, hp, sellable, hs, rfl⟩
    exact ⟨product, hp, sellable, hs, rfl⟩

theorem processSellable_status (product : RawProduct) (sellable : RawSellable) :
    (processSellable product sellable).status =
      calculateStockStatus (processSellable product sellable).availableStock
        (processSellable product sellable).totalSold
        (processSellable product sellable).reorderLevel := rfl

theorem processSellable_isLowStock (product : RawProduct) (sellable : RawSellable) :
    (processSellable product sellable).isLowStock =
      (decide ((processSellable product sellable).availableStock ≤
          (processSellable product sellable).reorderLevel) &&
        decide ((processSellable product sellable).availableStock > 0)) := rfl

theorem processSellable_isOutOfStock (product : RawProduct) (sellable : RawSellable) :
    (processSellable product sellable).isOutOfStock =
      decide ((processSellable product sellable).availableStock = 0) := rfl

theorem calculateStockStatus_of_gt (available sold reorderLevel : ℚ)
    (hne : available ≠ 0) (hgt : reorderLevel < available) :
    calculateStockStatus available sold reorderLevel =
      specClassifyDays (available / (if sold = 0 then 1 / 10 else sold / 365)) := by
  have h365 : (sold / 365 = 0) ↔ sold = 0 := by
    constructor
    · intro h
      have := div_eq_zero_iff.mp h
      rcases this with h | h
      · exact h
      · norm_num at h
    · rintro rfl; simp
  unfold calculateStockStatus specClassifyDays
  simp only [if_neg hne, if_neg (not_le.mpr hgt), h365]

/-- The binary64 function at inputs where the exact quotient sits on a class
boundary and the rounded one does not. -/
theorem calculateStockStatusBinary64_at_boundaries :
    calculateStockStatusBinary64 66 803 5 = "adequate" ∧
      calculateStockStatus 66 803 5 = "good" ∧
      calculateStockStatusBinary64 132 1606 5 = "adequate" ∧
      calculateStockStatusBinary64 162 1971 5 = "adequate" ∧
      calculateStockStatusBinary64 198 803 5 = "good" ∧
      calculateStockStatus 198 803 5 = "overstock" ∧
      calculateStockStatusBinary64 396 1606 5 = "good" ∧
      binary64Tenth = JsNumber.finite (mkRat 3602879701896397 36028797018963968) ∧
      binary64Div 803 365 = JsNumber.finite (mkRat 2476979795053773 1125899906842624) := by
  refine ⟨by decide, ?_, by decide, by decide, by decide, ?_, by decide, by decide, by decide⟩
  · norm_num [calculateStockStatus]
  · norm_num [calculateStockStatus]

/-- The two forms of the function agree wherever a guard answers. -/
theorem calculateStockStatusBinary64_of_guard (available sold reorderLevel : ℚ)
    (h : available = 0 ∨ available ≤ reorderLevel) :
    calculateStockStatusBinary64 available sold reorderLevel =
      calculateStockStatus available sold reorderLevel := by
  unfold calculateStockStatusBinary64 calculateStockStatus
  by_cases h0 : available = 0
  · rw [if_pos h0, if_pos h0]
  · rcases h with h | h
    · exact absurd h h0
    · rw [if_neg h0, if_neg h0, if_pos h, if_pos h]

/-! ## Status classification: claims C1 to C4 -/

/-- C1 (as stated, refuted): with available = 6, sold = 1, reorderLevel = 5 the
hypotheses of the claim hold and the code answers "overstock", with exact
divisions and with binary64 divisions alike; the class of
`available / max(sold / 365, 0.1)` is "good", computed exactly or in binary64. -/
theorem C1_counterexample :
    (6 : ℚ) ≠ 0 ∧ (6 : ℚ) > 5 ∧
      calculateStockStatus 6 1 5 = "overstock" ∧
      specClassifyDays (specDaysOfStock 6 1) = "good" ∧
      calculateStockStatus 6 1 5 ≠ specClassifyDays (specDaysOfStock 6 1) ∧
      calculateStockStatusBinary64 6 1 5 = "overstock" ∧
      specClassifyDaysJs (specDaysOfStockBinary64 6 1) = "good" := by
  have h1 : calculateStockStatus 6 1 5 = "overstock" := by
    norm_num [calculateStockStatus]
  have h2 : specClassifyDays (specDaysOfStock 6 1) = "good" := by
    have hmax : max ((1 : ℚ) / 365) (1 / 10) = 1 / 10 := max_eq_right (by norm_num)
    rw [specDaysOfStock, hmax]
    norm_num [specClassifyDays]
  refine ⟨by norm_num, by norm_num, h1, h2, ?_, by decide, by decide⟩
  rw [h1, h2]
  decide

/-- C1 (amended): for available ≠ 0 and available > reorderLevel, the program
returns the class of `daysOfStock = available / d`, the divisions rounded to
binary64, where `d` is the quotient `sold / 365` when that is not zero and the
literal `0.1` when it is (so for `sold = 0`); `d` is never zero and never
`NaN`, so the division is a division by a non-zero number. -/
theorem C1_status_class_of_binary64_days (available sold reorderLevel : ℚ)
    (hne : available ≠ 0) (hgt : available > reorderLevel) :
    calculateStockStatusBinary64 available sold reorderLevel =
        specClassifyDaysJs ((JsNumber.finite available).div
          (if (binary64Div sold 365).isFalsy then binary64Tenth else binary64Div sold 365)) ∧
      (sold = 0 →
        calculateStockStatusBinary64 available sold reorderLevel =
          specClassifyDaysJs ((JsNumber.finite available).div binary64Tenth)) ∧
      (if (binary64Div sold 365).isFalsy then binary64Tenth else binary64Div sold 365) ≠
        JsNumber.nan ∧
      (if (binary64Div sold 365).isFalsy then binary64Tenth else binary64Div sold 365) ≠
        JsNumber.finite 0 := by
  have hmain : calculateStockStatusBinary64 available sold reorderLevel =
      specClassifyDaysJs ((JsNumber.finite available).div
        (if (binary64Div sold 365).isFalsy then binary64Tenth else binary64Div sold 365)) := by
    unfold calculateStockStatusBinary64
    rw [if_neg hne, if_neg (not_le.mpr hgt)]
    rfl
  refine ⟨hmain, ?_, ?_, ?_⟩
  · rintro rfl
    rw [hmain]
    have hzero : (binary64Div 0 365).isFalsy = true := by decide
    rw [if_pos hzero]
  · cases hfalsy : (binary64Div sold 365).isFalsy with
    | true =>
      rw [if_pos rfl]
      decide
    | false =>
      rw [if_neg (by simp)]
      intro hnan
      rw [hnan] at hfalsy
      cases hfalsy
  · cases hfalsy : (binary64Div sold 365).isFalsy with
    | true =>
      rw [if_pos rfl]
      decide
    | false =>
      rw [if_neg (by simp)]
      intro hzero
      rw [hzero] at hfalsy
      exact absurd hfalsy (by decide)

/-- Witness for C1 (amended) at available = 66, sold = 803, reorderLevel = 5,
where the rounded quotient is below 30 and the exact one is 30. -/
theorem C1_status_class_of_binary64_days_witness :
    (66 : ℚ) ≠ 0 ∧ (66 : ℚ) > 5 ∧ calculateStockStatusBinary64 66 803 5 = "adequate" :=
  ⟨by norm_num, by norm_num,
    (C1_status_class_of_binary64_days 66 803 5 (by norm_num) (by norm_num)).1.trans
      (by decide)⟩

/-- C2: every produced item whose availableStock is 0 has status "critical",
isOutOfStock true and isLowStock false; and a sellable whose available stock
field (or whole inventory record) is absent, or is 0, yields availableStock 0. -/
theorem C2_zero_available_is_critical (products : List RawProduct) (item : EnrichedItem)
    (hmem : item ∈ (processInventoryData products).products)
    (hzero : item.availableStock = 0) :
    (item.status = "critical" ∧ item.isOutOfStock = true ∧ item.isLowStock = false) ∧
      ∀ (product : RawProduct) (sellable : RawSellable),
        ((sellable.inventory.bind fun i => i.available_stock_level_at_all_warehouses) = none ∨
          (sellable.inventory.bind fun i => i.available_stock_level_at_all_warehouses) =
            some 0) →
        (processSellable product sellable).availableStock = 0 := by
  constructor
  · obtain ⟨product, _, sellable, _, rfl⟩ := (mem_products_iff products item).mp hmem
    rw [processSellable_status, processSellable_isOutOfStock, processSellable_isLowStock,
      hzero]
    refine ⟨?_, ?_, ?_⟩
    · simp [calculateStockStatus]
    · simp
    · simp
  · intro product sellable h
    show jsOr (sellable.inventory.bind fun i => i.available_stock_level_at_all_warehouses) 0
      = 0
    rcases h with h | h <;> rw [h] <;> simp [jsOr]

/-- Witness for C2: one product whose only sellable has no inventory record. -/
theorem C2_zero_available_is_critical_witness :
    processSellable (mkProduct 1 "Pod" [bareSellable]) bareSellable ∈
        (processInventoryData [mkProduct 1 "Pod" [bareSellable]]).products ∧
      (processSellable (mkProduct 1 "Pod" [bareSellable]) bareSellable).availableStock = 0 ∧
      (processSellable (mkProduct 1 "Pod" [bareSellable]) bareSellable).status = "critical" ∧
      (processSellable (mkProduct 1 "Pod" [bareSellable]) bareSellable).isOutOfStock = true ∧
      (processSellable (mkProduct 1 "Pod" [bareSellable]) bareSellable).isLowStock = false :=
  have hmem : processSellable (mkProduct 1 "Pod" [bareSellable]) bareSellable ∈
      (processInventoryData [mkProduct 1 "Pod" [bareSellable]]).products := by
    simp [processInventoryData, mkProduct]
  have hzero :
      (processSellable (mkProduct 1 "Pod" [bareSellable]) bareSellable).availableStock = 0 := by
    simp [processSellable, bareSellable, jsOr]
  ⟨hmem, hzero, (C2_zero_available_is_critical _ _ hmem hzero).1⟩

/-- C3: every produced item with availableStock > 0 and
availableStock ≤ reorderLevel has isLowStock true and status "low". -/
theorem C3_at_or_below_reorder_is_low (products : List RawProduct) (item : EnrichedItem)
    (hmem : item ∈ (processInventoryData products).products)
    (hpos : item.availableStock > 0)
    (hle : item.availableStock ≤ item.reorderLevel) :
    item.isLowStock = true ∧ item.status = "low" := by
  obtain ⟨product, _, sellable, _, rfl⟩ := (mem_products_iff products item).mp hmem
  rw [processSellable_status, processSellable_isLowStock]
  constructor
  · simp [hpos, hle]
  · simp [calculateStockStatus, hle, ne_of_gt hpos]

/-- Witness for C3: available 3, nothing sold, default reorder level 5. -/
theorem C3_at_or_below_reorder_is_low_witness :
    processSellable (mkProduct 1 "Pod" [stockSellable (some 3) none none])
          (stockSellable (some 3) none none) ∈
        (processInventoryData [mkProduct 1 "Pod" [stockSellable (some 3) none none]]).products ∧
      (processSellable (mkProduct 1 "Pod" [stockSellable (some 3) none none])
          (stockSellable (some 3) none none)).isLowStock = true ∧
      (processSellable (mkProduct 1 "Pod" [stockSellable (some 3) none none])
          (stockSellable (some 3) none none)).status = "low" :=
  have hmem : processSellable (mkProduct 1 "Pod" [stockSellable (some 3) none none])
        (stockSellable (some 3) none none) ∈
      (processInventoryData [mkProduct 1 "Pod" [stockSellable (some 3) none none]]).products := by
    simp [processInventoryData, mkProduct]
  ⟨hmem, C3_at_or_below_reorder_is_low _ _ hmem
    (by norm_num [processSellable, stockSellable, bareSellable, jsOr])
    (by norm_num [processSellable, stockSellable, bareSellable, jsOr])⟩

/-- C4 (as stated, refuted): a sellable with available stock 0, nothing sold and
minimum reorder level -1 has available stock above its reorder level;
`daysOfStock = 0 / 0.1 = 0` is in the class "low", and the code answers
"critical". -/
theorem C4_counterexample :
    (processSellable (mkProduct 1 "Pod" []) (stockSellable (some 0) (some 0) (some (-1)))).totalSold
        = 0 ∧
      (processSellable (mkProduct 1 "Pod" []) (stockSellable (some 0) (some 0) (some (-1)))).availableStock >
        (processSellable (mkProduct 1 "Pod" []) (stockSellable (some 0) (some 0) (some (-1)))).reorderLevel ∧
      (processSellable (mkProduct 1 "Pod" []) (stockSellable (some 0) (some 0) (some (-1)))).status
        = "critical" ∧
      specClassifyDays
          ((processSellable (mkProduct 1 "Pod" [])
            (stockSellable (some 0) (some 0) (some (-1)))).availableStock / (1 / 10)) = "low" := by
  refine ⟨?_, ?_, ?_, ?_⟩
  · norm_num [processSellable, stockSellable, bareSellable, jsOr]
  · norm_num [processSellable, stockSellable, bareSellable, jsOr]
  · norm_num [processSellable, stockSellable, bareSellable, jsOr, calculateStockStatus]
  · norm_num [processSellable, stockSellable, bareSellable, jsOr, specClassifyDays]

/-- C4 (amended): for every sellable with total quantity sold 0 and nonzero
available stock greater than its reorder level, the status is the class of
`daysOfStock = available / 0.1`: "low" below 0.7 units, "adequate" from 0.7
below 3, "good" from 3 below 9, "overstock" from 9 units up; and
available = 10, sold = 0, reorder level = 5 gives "overstock". -/
theorem C4_zero_sales_classification (product : RawProduct) (sellable : RawSellable)
    (hsold : (processSellable product sellable).totalSold = 0)
    (hne : (processSellable product sellable).availableStock ≠ 0)
    (hgt : (processSellable product sellable).availableStock >
      (processSellable product sellable).reorderLevel) :
    (processSellable product sellable).status =
        specClassifyDays ((processSellable product sellable).availableStock / (1 / 10)) ∧
      ((processSellable product sellable).status = "low" ↔
        (processSellable product sellable).availableStock < 7 / 10) ∧
      ((processSellable product sellable).status = "adequate" ↔
        7 / 10 ≤ (processSellable product sellable).availableStock ∧
          (processSellable product sellable).availableStock < 3) ∧
      ((processSellable product sellable).status = "good" ↔
        3 ≤ (processSellable product sellable).availableStock ∧
          (processSellable product sellable).availableStock < 9) ∧
      ((processSellable product sellable).status = "overstock" ↔
        9 ≤ (processSellable product sellable).availableStock) ∧
      calculateStockStatus 10 0 5 = "overstock" := by
  have hstatus := calculateStockStatus_of_gt _ (processSellable product sellable).totalSold _
    hne hgt
  rw [← processSellable_status, hsold, if_pos rfl] at hstatus
  generalize (processSellable product sellable).availableStock = a at *
  generalize (processSellable product sellable).status = st at *
  subst hstatus
  have hdiv : a / (1 / 10) = a * 10 := by field_simp
  rw [hdiv]
  have h7 : a * 10 < 7 ↔ a < 7 / 10 := by constructor <;> intro h <;> linarith
  have h30 : a * 10 < 30 ↔ a < 3 := by constructor <;> intro h <;> linarith
  have h90 : a * 10 < 90 ↔ a < 9 := by constructor <;> intro h <;> linarith
  refine ⟨rfl, ?_, ?_, ?_, ?_, by norm_num [calculateStockStatus]⟩
  · unfold specClassifyDays
    simp only [h7, h30, h90]
    split_ifs <;> simp_all
  · unfold specClassifyDays
    simp only [h7, h30, h90]
    split_ifs <;> simp_all
  · unfold specClassifyDays
    simp only [h7, h30, h90]
    split_ifs with c1 c2 c3
    · simp only [String.reduceEq, false_iff, not_and, not_lt]
      intro h3
      linarith
    · simp only [String.reduceEq, false_iff, not_and, not_lt]
      intro h3
      linarith
    · simp only [true_iff]
      exact ⟨not_lt.mp c2, c3⟩
    · simp only [String.reduceEq, false_iff, not_and, not_lt]
      intro _
      exact not_lt.mp c3
  · unfold specClassifyDays
    simp only [h7, h30, h90]
    split_ifs with c1 c2 c3
    · simp only [String.reduceEq, false_iff, not_le]
      linarith
    · simp only [String.reduceEq, false_iff, not_le]
      linarith
    · simp only [String.reduceEq, false_iff, not_le]
      exact c3
    · simp only [true_iff]
      exact not_lt.mp c3

/-- Witness for C4 (amended): available = 10, sold = 0, reorder level = 5. -/
theorem C4_zero_sales_classification_witness :
    (processSellable (mkProduct 1 "Pod" [])
        (stockSellable (some 10) (some 0) (some 5))).totalSold = 0 ∧
      (processSellable (mkProduct 1 "Pod" [])
        (stockSellable (some 10) (some 0) (some 5))).availableStock ≠ 0 ∧
      (processSellable (mkProduct 1 "Pod" [])
        (stockSellable (some 10) (some 0) (some 5))).availableStock >
        (processSellable (mkProduct 1 "Pod" [])
          (stockSellable (some 10) (some 0) (some 5))).reorderLevel ∧
      (processSellable (mkProduct 1 "Pod" [])
        (stockSellable (some 10) (some 0) (some 5))).status = "overstock" :=
  have hsold : (processSellable (mkProduct 1 "Pod" [])
      (stockSellable (some 10) (some 0) (some 5))).totalSold = 0 := by
    norm_num [processSellable, stockSellable, bareSellable, jsOr]
  have hav : (processSellable (mkProduct 1 "Pod" [])
      (stockSellable (some 10) (some 0) (some 5))).availableStock = 10 := by
    norm_num [processSellable, stockSellable, bareSellable, jsOr]
  have hre : (processSellable (mkProduct 1 "Pod" [])
      (stockSellable (some 10) (some 0) (some 5))).reorderLevel = 5 := by
    norm_num [processSellable, stockSellable, bareSellable, jsOr]
  have hne : (processSellable (mkProduct 1 "Pod" [])
      (stockSellable (some 10) (some 0) (some 5))).availableStock ≠ 0 := by
    rw [hav]; norm_num
  have hgt : (processSellable (mkProduct 1 "Pod" [])
      (stockSellable (some 10) (some 0) (some 5))).availableStock >
      (processSellable (mkProduct 1 "Pod" [])
        (stockSellable (some 10) (some 0) (some 5))).reorderLevel := by
    rw [hav, hre]; norm_num
  ⟨hsold, hne, hgt,
    (C4_zero_sales_classification _ _ hsold hne hgt).2.2.2.2.1.mpr (by rw [hav]; norm_num)⟩

theorem calculateStockStatus_mem_labels (available sold reorderLevel : ℚ) :
    calculateStockStatus available sold reorderLevel ∈ statusLabels := by
  simp only [calculateStockStatus, statusLabels]
  split_ifs <;> simp

theorem status_mem_labels (products : List RawProduct) (item : EnrichedItem)
    (hmem : item ∈ (processInventoryData products).products) :
    item.status ∈ statusLabels := by
  obtain ⟨product, _, sellable, _, rfl⟩ := (mem_products_iff products item).mp hmem
  rw [processSellable_status]
  exact calculateStockStatus_mem_labels _ _ _

/-- The number of items carrying a given status. -/
theorem count_labels_eq_length (items : List EnrichedItem)
    (h : ∀ item ∈ items, item.status ∈ statusLabels) :
    (items.filter fun p => decide (p.status = "critical")).length +
      (items.filter fun p => decide (p.status = "low")).length +
      (items.filter fun p => decide (p.status = "adequate")).length +
      (items.filter fun p => decide (p.status = "good")).length +
      (items.filter fun p => decide (p.status = "overstock")).length = items.length := by
  induction items with
  | nil => rfl
  | cons x rest ih =>
    have hrest := ih fun item hitem => h item (List.mem_cons_of_mem _ hitem)
    have hx := h x (List.mem_cons_self _ _)
    simp only [statusLabels, List.mem_cons, List.mem_singleton, List.not_mem_nil,
      or_false] at hx
    rcases hx with hx | hx | hx | hx | hx <;>
      simp only [List.filter_cons, hx, String.reduceEq, decide_True, decide_False,
        if_true, if_false, List.length_cons, Bool.false_eq_true] <;> omega

theorem sum_value_filter_pos (entries : List StatusEntry) :
    ((entries.filter fun s => decide (s.value > 0)).map fun s => s.value).sum =
      (entries.map fun s => s.value).sum := by
  induction entries with
  | nil => rfl
  | cons e rest ih =>
    by_cases he : e.value > 0
    · rw [List.filter_cons_of_pos (by simpa using he)]
      simp only [List.map_cons, List.sum_cons, ih]
    · have h0 : e.value = 0 := by omega
      rw [List.filter_cons_of_neg (by simpa using he)]
      simp only [List.map_cons, List.sum_cons, ih, h0, zero_add]

/-! ## Aggregates: claims C5 to C9 -/

/-- C5: the values of the stockStatusDistribution entries sum to
totalProducts, no entry has value 0, and every produced item's status is one
of the five counted labels. -/
theorem C5_distribution_sums_to_total (products : List RawProduct) :
    (((processInventoryData products).stockStatusDistribution.map fun s => s.value).sum =
        (processInventoryData products).totalProducts) ∧
      (∀ s ∈ (processInventoryData products).stockStatusDistribution, s.value ≠ 0) ∧
      (∀ item ∈ (processInventoryData products).products, item.status ∈ statusLabels) := by
  refine ⟨?_, ?_, fun item hitem => status_mem_labels products item hitem⟩
  · have hcount := count_labels_eq_length (processInventoryData products).products
      fun item hitem => status_mem_labels products item hitem
    show ((List.filter (fun s : StatusEntry => decide (s.value > 0)) _).map
      fun s => s.value).sum = (processInventoryData products).products.length
    rw [sum_value_filter_pos, ← hcount]
    simp only [List.map_cons, List.map_nil, List.sum_cons, List.sum_nil, processInventoryData]
    omega
  · intro s hs
    have hpos : s.value > 0 := by
      have := (List.mem_filter.mp hs).2
      exact of_decide_eq_true this
    omega

theorem orderedInsertBy_perm {α : Type} (cmp : α → α → ℚ) (a : α) (l : List α) :
    (orderedInsertBy cmp a l).Perm (a :: l) := by
  induction l with
  | nil => exact List.Perm.refl _
  | cons b rest ih =>
    unfold orderedInsertBy
    split_ifs
    · exact List.Perm.refl _
    · exact (List.Perm.cons b ih).trans (List.Perm.swap a b rest)

theorem jsSort_perm {α : Type} (cmp : α → α → ℚ) (l : List α) : (jsSort cmp l).Perm l := by
  induction l with
  | nil => exact List.Perm.refl _
  | cons a rest ih =>
    exact (orderedInsertBy_perm cmp a (jsSort cmp rest)).trans (List.Perm.cons a ih)

theorem jsSort_length {α : Type} (cmp : α → α → ℚ) (l : List α) :
    (jsSort cmp l).length = l.length :=
  (jsSort_perm cmp l).length_eq

/-- Insertion keeps a list non-increasing in the key. -/
theorem orderedInsertBy_desc {α : Type} (key : α → ℚ) (a : α) (l : List α)
    (hl : l.Pairwise fun x y => key y ≤ key x) :
    (orderedInsertBy (fun x y => key y - key x) a l).Pairwise fun x y => key y ≤ key x := by
  induction l with
  | nil => simp [orderedInsertBy]
  | cons b rest ih =>
    have hb := List.pairwise_cons.mp hl
    unfold orderedInsertBy
    split_ifs with hcmp
    · have hba : key b ≤ key a := by linarith
      refine List.pairwise_cons.mpr ⟨?_, hl⟩
      intro x hx
      rcases List.mem_cons.mp hx with rfl | hx
      · exact hba
      · exact le_trans (hb.1 x hx) hba
    · have hab : key a ≤ key b := by
        have : ¬ key b - key a ≤ 0 := hcmp
        linarith [lt_of_not_ge this]
      refine List.pairwise_cons.mpr ⟨?_, ih hb.2⟩
      intro x hx
      have hx2 := (orderedInsertBy_perm (fun x y => key y - key x) a rest).subset hx
      rcases List.mem_cons.mp hx2 with rfl | hx2
      · exact hab
      · exact hb.1 x hx2

/-- The sort by `(a, b) => key b - key a` returns a list non-increasing in the key. -/
theorem jsSort_desc {α : Type} (key : α → ℚ) (l : List α) :
    (jsSort (fun x y => key y - key x) l).Pairwise fun x y => key y ≤ key x := by
  induction l with
  | nil => exact List.Pairwise.nil
  | cons a rest ih => exact orderedInsertBy_desc key a _ ih

/-- Insertion never moves an element past one of the same key. -/
theorem orderedInsertBy_filter_key {α : Type} (key : α → ℚ) (v : ℚ) (a : α) (l : List α) :
    (orderedInsertBy (fun x y => key y - key x) a l).filter (fun x => decide (key x = v)) =
      (a :: l).filter (fun x => decide (key x = v)) := by
  induction l with
  | nil => rfl
  | cons b rest ih =>
    unfold orderedInsertBy
    split_ifs with hcmp
    · rfl
    · have hlt : key a < key b := by
        have : ¬ key b - key a ≤ 0 := hcmp
        linarith [lt_of_not_ge this]
      by_cases hbv : key b = v
      · have hav : ¬ key a = v := by
          intro h
          rw [h, hbv] at hlt
          exact lt_irrefl _ hlt
        rw [List.filter_cons_of_pos (by simpa using hbv), ih,
          List.filter_cons_of_neg (by simpa using hav),
          List.filter_cons_of_neg (by simpa using hav),
          List.filter_cons_of_pos (by simpa using hbv)]
      · rw [List.filter_cons_of_neg (by simpa using hbv), ih]
        by_cases hav : key a = v
        · rw [List.filter_cons_of_pos (by simpa using hav),
            List.filter_cons_of_pos (by simpa using hav),
            List.filter_cons_of_neg (by simpa using hbv)]
        · rw [List.filter_cons_of_neg (by simpa using hav),
            List.filter_cons_of_neg (by simpa using hav),
            List.filter_cons_of_neg (by simpa using hbv)]

/-- Stability: the items of one key value keep their order under the sort. -/
theorem jsSort_filter_key {α : Type} (key : α → ℚ) (v : ℚ) (l : List α) :
    (jsSort (fun x y => key y - key x) l).filter (fun x => decide (key x = v)) =
      l.filter (fun x => decide (key x = v)) := by
  induction l with
  | nil => rfl
  | cons a rest ih =>
    show (orderedInsertBy _ a (jsSort _ rest)).filter _ = _
    rw [orderedInsertBy_filter_key]
    by_cases hav : key a = v
    · rw [List.filter_cons_of_pos (by simpa using hav),
        List.filter_cons_of_pos (by simpa using hav), ih]
    · rw [List.filter_cons_of_neg (by simpa using hav),
        List.filter_cons_of_neg (by simpa using hav), ih]

theorem jsSort_isStableSortDescBy {α : Type} (key : α → ℚ) (l : List α) :
    IsStableSortDescBy key (jsSort (fun x y => key y - key x) l) l :=
  ⟨jsSort_perm _ l, jsSort_desc key l, fun v => jsSort_filter_key key v l⟩

/-- Two lists that are non-increasing in the key and agree on the items of
every key value are equal. -/
theorem desc_eq_of_filter_eq {α : Type} (key : α → ℚ) :
    ∀ s t : List α, s.Pairwise (fun x y => key y ≤ key x) →
      t.Pairwise (fun x y => key y ≤ key x) →
      (∀ v : ℚ, s.filter (fun x => decide (key x = v)) =
        t.filter (fun x => decide (key x = v))) → s = t := by
  intro s
  induction s with
  | nil =>
    intro t _ _ h
    cases t with
    | nil => rfl
    | cons b t =>
      have := h (key b)
      rw [List.filter_cons_of_pos (by simp)] at this
      simp at this
  | cons a s ih =>
    intro t hs ht h
    cases t with
    | nil =>
      have := h (key a)
      rw [List.filter_cons_of_pos (by simp)] at this
      simp at this
    | cons b t =>
      have hs2 := List.pairwise_cons.mp hs
      have ht2 := List.pairwise_cons.mp ht
      have ha_mem : a ∈ b :: t := by
        have h1 : a ∈ (a :: s).filter (fun x => decide (key x = key a)) :=
          List.mem_filter.mpr ⟨List.mem_cons_self _ _, by simp⟩
        rw [h (key a)] at h1
        exact (List.mem_filter.mp h1).1
      have hb_mem : b ∈ a :: s := by
        have h1 : b ∈ (b :: t).filter (fun x => decide (key x = key b)) :=
          List.mem_filter.mpr ⟨List.mem_cons_self _ _, by simp⟩
        rw [← h (key b)] at h1
        exact (List.mem_filter.mp h1).1
      have hab : key a ≤ key b := by
        rcases List.mem_cons.mp ha_mem with rfl | hmem
        · exact le_refl _
        · exact ht2.1 a hmem
      have hba : key b ≤ key a := by
        rcases List.mem_cons.mp hb_mem with rfl | hmem
        · exact le_refl _
        · exact hs2.1 b hmem
      have hkey : key b = key a := le_antisymm hba hab
      have hhead := h (key a)
      rw [List.filter_cons_of_pos (by simp), List.filter_cons_of_pos (by simp [hkey])] at hhead
      have hab_eq : a = b := (List.cons.inj hhead).1
      subst hab_eq
      congr 1
      apply ih t hs2.2 ht2.2
      intro v
      have hv := h v
      by_cases hav : key a = v
      · rw [List.filter_cons_of_pos (by simpa using hav),
          List.filter_cons_of_pos (by simpa using hav)] at hv
        exact (List.cons.inj hv).2
      · rw [List.filter_cons_of_neg (by simpa using hav),
          List.filter_cons_of_neg (by simpa using hav)] at hv
        exact hv

/-- The stable descending sort of a list is unique. -/
theorem isStableSortDescBy_unique {α : Type} (key : α → ℚ) (s t items : List α)
    (hs : IsStableSortDescBy key s items) (ht : IsStableSortDescBy key t items) : s = t :=
  desc_eq_of_filter_eq key s t hs.2.1 ht.2.1 fun v => (hs.2.2 v).trans (ht.2.2 v).symm

theorem topSellingProducts_eq (products : List RawProduct) :
    (processInventoryData products).topSellingProducts =
      (jsSort (fun (a b : EnrichedItem) => b.totalSold - a.totalSold)
        (processInventoryData products).products).take 20 := rfl

/-- C6: topSellingProducts has length min(20, totalProducts) and is sorted in
non-increasing order of totalSold. -/
theorem C6_top_selling_length_sorted (products : List RawProduct) :
    (processInventoryData products).topSellingProducts.length =
        min 20 (processInventoryData products).totalProducts ∧
      (processInventoryData products).topSellingProducts.Pairwise
        (fun a b => b.totalSold ≤ a.totalSold) := by
  rw [topSellingProducts_eq]
  constructor
  · rw [List.length_take, jsSort_length]
    rfl
  · exact (jsSort_desc (fun p : EnrichedItem => p.totalSold) _).sublist (List.take_sublist _ _)

/-- C7: topSellingProducts is a selection of the produced items (together with
the items left out it is a rearrangement of them) in which every item left out
has totalSold no greater than every item kept; the kept items of each totalSold
value are an initial run of the produced items of that value, in the same
order; and it equals the first 20 elements of the stable descending sort by
totalSold, which exists and is unique. -/
theorem C7_top_selling_stable_selection (products : List RawProduct) :
    (∃ rest : List EnrichedItem,
        ((processInventoryData products).topSellingProducts ++ rest).Perm
          (processInventoryData products).products ∧
        ∀ kept ∈ (processInventoryData products).topSellingProducts,
          ∀ out ∈ rest, out.totalSold ≤ kept.totalSold) ∧
      (∀ v : ℚ,
        ((processInventoryData products).topSellingProducts.filter
            fun p => decide (p.totalSold = v)) <+:
          ((processInventoryData products).products.filter
            fun p => decide (p.totalSold = v))) ∧
      (∃ sorted : List EnrichedItem,
        IsStableSortDescBy (fun p => p.totalSold) sorted
          (processInventoryData products).products) ∧
      (∀ sorted : List EnrichedItem,
        IsStableSortDescBy (fun p => p.totalSold) sorted
            (processInventoryData products).products →
          (processInventoryData products).topSellingProducts = sorted.take 20) := by
  have hstable := jsSort_isStableSortDescBy (fun p : EnrichedItem => p.totalSold)
    (processInventoryData products).products
  rw [topSellingProducts_eq]
  refine ⟨⟨(jsSort (fun (a b : EnrichedItem) => b.totalSold - a.totalSold)
      (processInventoryData products).products).drop 20, ?_, ?_⟩, ?_, ⟨_, hstable⟩, ?_⟩
  · rw [List.take_append_drop]
    exact hstable.1
  · have hdesc := hstable.2.1
    rw [← List.take_append_drop 20 (jsSort _ _)] at hdesc
    intro kept hkept out hout
    exact (List.pairwise_append.mp hdesc).2.2 kept hkept out hout
  · intro v
    rw [← hstable.2.2 v]
    exact (List.take_prefix 20 _).filter _
  · intro sorted hsorted
    rw [isStableSortDescBy_unique _ _ _ _ hsorted hstable]

theorem products_cons (product : RawProduct) (rest : List RawProduct) :
    (processInventoryData (product :: rest)).products =
      (product.sellables.map fun sellable => processSellable product sellable) ++
        (processInventoryData rest).products := by
  simp only [processInventoryData, List.flatMap_cons]

theorem products_eq_map_specPairs (products : List RawProduct) :
    (processInventoryData products).products =
      (specPairs products).map fun pair => processSellable pair.1 pair.2 := by
  induction products with
  | nil => rfl
  | cons product rest ih =>
    rw [products_cons, ih, specPairs, List.map_append, List.map_map]
    rfl

theorem specPairs_length (products : List RawProduct) :
    (specPairs products).length = (products.map fun p => p.sellables.length).sum := by
  induction products with
  | nil => rfl
  | cons product rest ih =>
    rw [specPairs, List.length_append, List.length_map, ih, List.map_cons, List.sum_cons]

/-- C8: processInventoryData produces exactly one item per (product, sellable)
pair, in product order and then sellable order within a product, each item
built from its pair and carrying the parent product's id; totalProducts equals
the sum over products of the number of sellables, and is 0 for the empty list. -/
theorem C8_one_item_per_sellable (products : List RawProduct) :
    ((processInventoryData products).products =
        (specPairs products).map fun pair => processSellable pair.1 pair.2) ∧
      (((processInventoryData products).products.map fun item => item.id) =
        (specPairs products).map fun pair => pair.1.id) ∧
      ((processInventoryData products).totalProducts =
        (products.map fun p => p.sellables.length).sum) ∧
      (processInventoryData []).totalProducts = 0 := by
  refine ⟨products_eq_map_specPairs products, ?_, ?_, rfl⟩
  · rw [products_eq_map_specPairs, List.map_map]
    rfl
  · show (processInventoryData products).products.length = _
    rw [products_eq_map_specPairs, List.length_map, specPairs_length]

theorem head_splitSpace (cs : List Char) :
    (splitSpace cs).head? = some (cs.takeWhile fun c => decide (c ≠ ' ')) := by
  induction cs with
  | nil => rfl
  | cons c rest ih =>
    unfold splitSpace
    by_cases hc : c = ' '
    · rw [if_pos hc, List.takeWhile_cons_of_neg (by simpa using hc)]
      rfl
    · rw [if_neg hc, List.takeWhile_cons_of_pos (by simpa using hc)]
      cases hsplit : splitSpace rest with
      | nil => rw [hsplit] at ih; cases ih
      | cons p ps =>
        rw [hsplit] at ih
        have hp : p = rest.takeWhile fun c => decide (c ≠ ' ') := Option.some.inj ih
        simp only [List.head?_cons, hp]

theorem categoryOf_eq (title : String) :
    categoryOf title =
      if beforeFirstSpace title = [] then "Other" else String.mk (beforeFirstSpace title) := by
  unfold categoryOf beforeFirstSpace
  rw [head_splitSpace]

theorem beforeFirstSpace_eq_nil (title : String) :
    beforeFirstSpace title = [] ↔ title = "" ∨ title.data.head? = some ' ' := by
  unfold beforeFirstSpace
  cases hdata : title.data with
  | nil =>
    have : title = "" := String.ext hdata
    simp [this]
  | cons c rest =>
    have hne : title ≠ "" := by
      intro h
      rw [h] at hdata
      cases hdata
    by_cases hc : c = ' '
    · simp [hc, hne]
    · simp [hc, hne]

theorem categorySet_keys (m : List (String × CategoryData)) (key : String) (d : CategoryData)
    (k : String) :
    k ∈ (categorySet m key d).map Prod.fst ↔ k = key ∨ k ∈ m.map Prod.fst := by
  induction m with
  | nil => simp [categorySet]
  | cons e rest ih =>
    unfold categorySet
    split_ifs with he
    · simp only [List.map_cons, List.mem_cons, he]
      tauto
    · simp only [List.map_cons, List.mem_cons, ih]
      tauto

theorem foldl_categoryStep_keys (items : List EnrichedItem) :
    ∀ (m : List (String × CategoryData)) (k : String),
      k ∈ (items.foldl categoryStep m).map Prod.fst ↔
        k ∈ m.map Prod.fst ∨ ∃ item ∈ items, categoryOf item.title = k := by
  induction items with
  | nil => intro m k; simp
  | cons x rest ih =>
    intro m k
    rw [List.foldl_cons, ih, categoryStep, categorySet_keys]
    simp only [List.mem_cons, exists_eq_or_imp]
    constructor
    · rintro ((h | h) | h)
      · exact Or.inr (Or.inl h.symm)
      · exact Or.inl h
      · exact Or.inr (Or.inr h)
    · rintro (h | h | h)
      · exact Or.inl (Or.inr h)
      · exact Or.inl (Or.inl h.symm)
      · exact Or.inr h

/-- The keys of `categoryMap` are the categories of the items. -/
theorem categoryMap_keys (items : List EnrichedItem) (k : String) :
    k ∈ (categoryMap items).map Prod.fst ↔ ∃ item ∈ items, categoryOf item.title = k := by
  rw [categoryMap, foldl_categoryStep_keys]
  simp

theorem topCategories_name_mem (products : List RawProduct) (c : CategoryEntry)
    (hc : c ∈ (processInventoryData products).topCategories) :
    c.name ∈ (categoryMap (processInventoryData products).products).map Prod.fst := by
  have h1 : c ∈ jsSort (fun (a b : CategoryEntry) => b.value - a.value)
      ((categoryMap (processInventoryData products).products).map fun e =>
        ({ name := e.1, stockLevel := e.2.stockLevel, value := e.2.value } : CategoryEntry)) :=
    List.mem_of_mem_take hc
  have h2 := (jsSort_perm _ _).subset h1
  obtain ⟨e, he, rfl⟩ := List.mem_map.mp h2
  exact List.mem_map.mpr ⟨e, he, rfl⟩

theorem takeWhile_not_whitespace_eq (cs : List Char)
    (hws : ∀ c ∈ cs, c.isWhitespace = true → c = ' ') :
    (cs.takeWhile fun c => !c.isWhitespace) = cs.takeWhile fun c => decide (c ≠ ' ') := by
  induction cs with
  | nil => rfl
  | cons c rest ih =>
    have hrest := ih fun x hx => hws x (List.mem_cons_of_mem _ hx)
    by_cases hc : c = ' '
    · have hw : c.isWhitespace = true := by rw [hc]; decide
      rw [List.takeWhile_cons_of_neg (by simp [hw]),
        List.takeWhile_cons_of_neg (by simpa using hc)]
    · have hw : c.isWhitespace = false := by
        cases h : c.isWhitespace with
        | false => rfl
        | true => exact absurd (hws c (List.mem_cons_self _ _) h) hc
      rw [List.takeWhile_cons_of_pos (by simp [hw]),
        List.takeWhile_cons_of_pos (by simpa using hc), hrest]

theorem specFirstToken_eq_categoryOf (title : String)
    (hfirst : title.data.head?.map Char.isWhitespace = some false)
    (hws : ∀ c ∈ title.data, c.isWhitespace = true → c = ' ') :
    specFirstToken title = some (categoryOf title) := by
  cases hdata : title.data with
  | nil => rw [hdata] at hfirst; cases hfirst
  | cons c rest =>
    rw [hdata] at hfirst hws
    have hc : c.isWhitespace = false := by simpa using hfirst
    have hcs : c ≠ ' ' := by
      intro h
      rw [h] at hc
      exact absurd hc (by decide)
    have hdrop : (c :: rest).dropWhile Char.isWhitespace = c :: rest :=
      List.dropWhile_cons_of_neg (by simp [hc])
    have htake := takeWhile_not_whitespace_eq (c :: rest) hws
    have hne : (c :: rest).takeWhile (fun c => decide (c ≠ ' ')) ≠ [] := by
      rw [List.takeWhile_cons_of_pos (by simpa using hcs)]
      exact List.cons_ne_nil _ _
    rw [categoryOf_eq]
    unfold specFirstToken beforeFirstSpace
    simp only [hdata, hdrop, htake, if_neg hne]

/-- C9 (as stated, refuted): the product titled " Foo" with one sellable yields
an item titled " Foo", whose first whitespace-delimited token is "Foo", so the
title has a token; the code groups it under "Other". A tab does not end the
category either: "Foo\tBar" is grouped under "Foo\tBar", its first token is "Foo". -/
theorem C9_counterexample :
    processSellable (mkProduct 1 " Foo" [bareSellable]) bareSellable ∈
        (processInventoryData [mkProduct 1 " Foo" [bareSellable]]).products ∧
      (processSellable (mkProduct 1 " Foo" [bareSellable]) bareSellable).title = " Foo" ∧
      specFirstToken " Foo" = some "Foo" ∧
      categoryOf " Foo" = "Other" ∧
      ((processInventoryData [mkProduct 1 " Foo" [bareSellable]]).topCategories.map
        fun c => c.name) = ["Other"] ∧
      specFirstToken "Foo\tBar" = some "Foo" ∧
      categoryOf "Foo\tBar" = "Foo\tBar" := by
  refine ⟨?_, rfl, by decide, by decide, rfl, by decide, by decide⟩
  simp [processInventoryData, mkProduct]

/-- C9 (amended): every produced item is grouped in `categoryMap` under the
text of its title in front of the first space character (the whole title when
it has no space), with "Other" in place of an empty text; the category is
"Other" exactly when that text is empty (the title is empty or starts with a
space) or is itself "Other"; every topCategories entry is named by the category
of a produced item; and when the title does not start with whitespace and
contains no whitespace character other than the space, the category is the
first whitespace-delimited token of the title. -/
theorem C9_category_is_text_before_first_space (products : List RawProduct)
    (item : EnrichedItem) (hmem : item ∈ (processInventoryData products).products) :
    categoryOf item.title ∈
        (categoryMap (processInventoryData products).products).map Prod.fst ∧
      (categoryOf item.title =
        if beforeFirstSpace item.title = [] then "Other"
        else String.mk (beforeFirstSpace item.title)) ∧
      (categoryOf item.title = "Other" ↔
        beforeFirstSpace item.title = [] ∨ beforeFirstSpace item.title = "Other".data) ∧
      (beforeFirstSpace item.title = [] ↔
        item.title = "" ∨ item.title.data.head? = some ' ') ∧
      (∀ c ∈ (processInventoryData products).topCategories,
        ∃ other ∈ (processInventoryData products).products,
          c.name = categoryOf other.title) ∧
      (item.title.data.head?.map Char.isWhitespace = some false →
        (∀ c ∈ item.title.data, c.isWhitespace = true → c = ' ') →
        specFirstToken item.title = some (categoryOf item.title)) := by
  refine ⟨(categoryMap_keys _ _).mpr ⟨item, hmem, rfl⟩, categoryOf_eq _, ?_,
    beforeFirstSpace_eq_nil _, ?_, specFirstToken_eq_categoryOf _⟩
  · rw [categoryOf_eq]
    split_ifs with h
    · simp [h]
    · constructor
      · intro heq
        exact Or.inr (congrArg String.data heq)
      · rintro (h1 | h1)
        · exact absurd h1 h
        · rw [h1]
  · intro c hc
    obtain ⟨other, hother, heq⟩ :=
      (categoryMap_keys _ _).mp (topCategories_name_mem products c hc)
    exact ⟨other, hother, heq.symm⟩

/-- Witness for C9 (amended): the item of a product titled "Vape Pen". -/
theorem C9_category_is_text_before_first_space_witness :
    processSellable (mkProduct 1 "Vape Pen" [bareSellable]) bareSellable ∈
        (processInventoryData [mkProduct 1 "Vape Pen" [bareSellable]]).products ∧
      categoryOf (processSellable (mkProduct 1 "Vape Pen" [bareSellable]) bareSellable).title =
        "Vape" ∧
      specFirstToken (processSellable (mkProduct 1 "Vape Pen" [bareSellable]) bareSellable).title =
        some "Vape" :=
  have hmem : processSellable (mkProduct 1 "Vape Pen" [bareSellable]) bareSellable ∈
      (processInventoryData [mkProduct 1 "Vape Pen" [bareSellable]]).products := by
    simp [processInventoryData, mkProduct]
  ⟨hmem, (C9_category_is_text_before_first_space _ _ hmem).2.1.trans (by decide),
    ((C9_category_is_text_before_first_space _ _ hmem).2.2.2.2.2 (by decide) (by decide)).trans
      (by decide)⟩

/-! ## Paginated fetch: claim C10 -/

theorem promiseAll_map_fetchPage_ok {α : Type} (upstream : ℕ → Response α) (batch : List ℕ)
    (hok : ∀ n ∈ batch, (upstream n).ok = true) :
    promiseAll (batch.map (fetchPage upstream)) = .ok (batch.map fun n => (upstream n).json) := by
  induction batch with
  | nil => rfl
  | cons n rest ih =>
    have hn : fetchPage upstream n = .ok (upstream n).json := by
      simp [fetchPage, hok n (List.mem_cons_self _ _)]
    have hrest := ih fun m hm => hok m (List.mem_cons_of_mem _ hm)
    simp only [List.map_cons, hn, promiseAll, hrest]

theorem foldl_append_eq {α : Type} (pages : List (List α)) (acc : List α) :
    pages.foldl (fun acc pageData => acc ++ pageData) acc = acc ++ pages.flatten := by
  induction pages generalizing acc with
  | nil => simp
  | cons p rest ih => simp [List.foldl_cons, ih, List.append_assoc]

/-- The batch loop, when every remaining page succeeds, appends the remaining
pages in list order, for every positive batch size and every entry index. -/
theorem fetchBatches_ok {α : Type} (upstream : ℕ → Response α) (remainingPages : List ℕ)
    (batchSize : ℕ) (hsize : 0 < batchSize)
    (hok : ∀ n ∈ remainingPages, (upstream n).ok = true) :
    ∀ (fuel i : ℕ) (allProducts : List α), remainingPages.length - i ≤ fuel →
      fetchBatches upstream remainingPages batchSize fuel i allProducts =
        some (.ok (allProducts ++
          (remainingPages.drop i).flatMap fun n => (upstream n).json)) := by
  intro fuel
  induction fuel with
  | zero =>
    intro i acc hfuel
    have hi : ¬ i < remainingPages.length := by omega
    have hdrop : remainingPages.drop i = [] := List.drop_eq_nil_of_le (by omega)
    unfold fetchBatches
    simp [hi, hdrop]
  | succ fuel ih =>
    intro i acc hfuel
    unfold fetchBatches
    by_cases hi : i < remainingPages.length
    · have hbatch : ∀ n ∈ (remainingPages.drop i).take batchSize, (upstream n).ok = true :=
        fun n hn => hok n (List.mem_of_mem_drop (List.mem_of_mem_take hn))
      simp only [if_pos hi, promiseAll_map_fetchPage_ok upstream _ hbatch]
      rw [ih (i + batchSize) _ (by omega), foldl_append_eq, List.append_assoc,
        ← List.flatMap_def, ← List.flatMap_append]
      have hsplit : (remainingPages.drop i).take batchSize ++ remainingPages.drop (i + batchSize)
          = remainingPages.drop i := by
        rw [← List.drop_drop, List.take_append_drop]
      rw [hsplit]
    · have hdrop : remainingPages.drop i = [] := List.drop_eq_nil_of_le (by omega)
      simp [hi, hdrop]

theorem range_flatMap_succ {α : Type} (f : ℕ → List α) (n : ℕ) :
    (List.range (n + 1)).flatMap f = f 0 ++ (List.range n).flatMap fun i => f (i + 1) := by
  rw [List.range_succ_eq_map, List.flatMap_cons, List.flatMap_map]

/-- C10: when the first page announces N ≥ 1 pages and the requests for pages
1..N all succeed, fetchInventoryData (given fuel for its loop) returns exactly
page 1 ++ page 2 ++ ... ++ page N; the length of the result is the sum of the
pages' lengths; and the batch loop gives the same records for every positive
batch size, not only 5. -/
theorem C10_fetch_concatenates_pages {α : Type} (upstream : ℕ → Response α) (N fuel : ℕ)
    (hN : 1 ≤ N)
    (hheader : (upstream 1).totalPagesCount = some (.int (N : ℤ)))
    (hok : ∀ k, 1 ≤ k → k ≤ N → (upstream k).ok = true)
    (hfuel : N - 1 ≤ fuel) :
    fetchInventoryData upstream fuel =
        some (.ok ((List.range N).flatMap fun i => (upstream (i + 1)).json)) ∧
      ((List.range N).flatMap fun i => (upstream (i + 1)).json).length =
        ((List.range N).map fun i => (upstream (i + 1)).json.length).sum ∧
      ∀ batchSize, 0 < batchSize →
        fetchBatches upstream ((List.range (N - 1)).map fun i => i + 2) batchSize fuel 0
            (upstream 1).json =
          some (.ok ((List.range N).flatMap fun i => (upstream (i + 1)).json)) := by
  obtain ⟨M, rfl⟩ : ∃ M, N = M + 1 := ⟨N - 1, by omega⟩
  have hremaining : ∀ n ∈ (List.range M).map (fun i => i + 2), (upstream n).ok = true := by
    intro n hn
    obtain ⟨i, hi, rfl⟩ := List.mem_map.mp hn
    have := List.mem_range.mp hi
    exact hok (i + 2) (by omega) (by omega)
  have hloop : ∀ batchSize, 0 < batchSize →
      fetchBatches upstream ((List.range M).map fun i => i + 2) batchSize fuel 0
          (upstream 1).json =
        some (.ok ((List.range (M + 1)).flatMap fun i => (upstream (i + 1)).json)) := by
    intro batchSize hsize
    rw [fetchBatches_ok upstream _ batchSize hsize hremaining fuel 0 _
      (by simp only [List.length_map, List.length_range]; omega)]
    rw [List.drop_zero, List.flatMap_map, range_flatMap_succ]
  refine ⟨?_, ?_, ?_⟩
  · unfold fetchInventoryData
    have hfirst : (upstream 1).ok = true := hok 1 (le_refl 1) hN
    simp only [hfirst, hheader, Option.getD_some, Bool.not_true, Bool.false_eq_true, if_false]
    by_cases hM : M = 0
    · subst hM
      simp [JsInt.leOne, List.range_succ]
    · have hle : JsInt.leOne (.int ((M + 1 : ℕ) : ℤ)) = false := by
        simp only [JsInt.leOne, decide_eq_false_iff_not]
        omega
      have hlen : JsInt.predLength (.int ((M + 1 : ℕ) : ℤ)) = M := by
        simp [JsInt.predLength]
      simp only [hle, hlen, Bool.false_eq_true, if_false]
      exact hloop 5 (by decide)
  · rw [List.length_flatMap]
    rfl
  · intro batchSize hsize
    exact hloop batchSize hsize

/-- Witness for C10: seven pages, fetched as page 1, a batch of pages 2..6 and
a batch of page 7. -/
theorem C10_fetch_concatenates_pages_witness :
    1 ≤ 7 ∧ (sevenPages 1).totalPagesCount = some (.int ((7 : ℕ) : ℤ)) ∧
      (∀ k, 1 ≤ k → k ≤ 7 → (sevenPages k).ok = true) ∧ 7 - 1 ≤ 6 ∧
      fetchInventoryData sevenPages 6 =
        some (.ok [1, 10, 2, 20, 3, 30, 4, 40, 5, 50, 6, 60, 7, 70]) :=
  ⟨by decide, rfl, fun _ _ _ => rfl, by decide,
    (C10_fetch_concatenates_pages sevenPages 7 6 (by decide) rfl (fun _ _ _ => rfl)
      (by decide)).1.trans rfl⟩

/-! ## Paginated fetch: claim C11 -/

theorem fetchPage_error {α : Type} (upstream : ℕ → Response α) (n : ℕ) (e : FetchError)
    (h : fetchPage upstream n = .error e) :
    e = .failedToFetchPage n ∧ (upstream n).ok = false := by
  unfold fetchPage at h
  cases hok : (upstream n).ok with
  | true => simp [hok] at h
  | false =>
    simp only [hok, Bool.not_false, if_true] at h
    exact ⟨(Except.error.inj h).symm, rfl⟩

theorem fetchPage_ok {α : Type} (upstream : ℕ → Response α) (n : ℕ) (records : List α)
    (h : fetchPage upstream n = .ok records) : (upstream n).ok = true := by
  unfold fetchPage at h
  cases hok : (upstream n).ok with
  | true => rfl
  | false => simp [hok] at h

/-- A batch either rejects with the error of one of its failing pages, or
resolves, and then every page of the batch succeeded. -/
theorem promiseAll_map_fetchPage_cases {α : Type} (upstream : ℕ → Response α)
    (batch : List ℕ) :
    (∃ n ∈ batch, (upstream n).ok = false ∧
        promiseAll (batch.map (fetchPage upstream)) = .error (.failedToFetchPage n)) ∨
      ((∀ n ∈ batch, (upstream n).ok = true) ∧
        ∃ results, promiseAll (batch.map (fetchPage upstream)) = .ok results) := by
  induction batch with
  | nil => exact Or.inr ⟨by simp, [], rfl⟩
  | cons n rest ih =>
    cases hn : fetchPage upstream n with
    | error e =>
      obtain ⟨rfl, hfail⟩ := fetchPage_error upstream n e hn
      exact Or.inl ⟨n, List.mem_cons_self _ _, hfail, by simp [promiseAll, hn]⟩
    | ok records =>
      have hnok := fetchPage_ok upstream n records hn
      rcases ih with ⟨m, hm, hfail, herr⟩ | ⟨hall, results, hres⟩
      · exact Or.inl ⟨m, List.mem_cons_of_mem _ hm, hfail, by simp [promiseAll, hn, herr]⟩
      · refine Or.inr ⟨?_, records :: results, by simp [promiseAll, hn, hres]⟩
        intro k hk
        rcases List.mem_cons.mp hk with rfl | hk
        · exact hnok
        · exact hall k hk

/-- The batch loop rejects when a page at or after its entry index fails. -/
theorem fetchBatches_error {α : Type} (upstream : ℕ → Response α) (remainingPages : List ℕ)
    (batchSize : ℕ) (hsize : 0 < batchSize) :
    ∀ (fuel i : ℕ) (allProducts : List α), remainingPages.length - i ≤ fuel →
      (∃ n ∈ remainingPages.drop i, (upstream n).ok = false) →
      ∃ m ∈ remainingPages, (upstream m).ok = false ∧
        fetchBatches upstream remainingPages batchSize fuel i allProducts =
          some (.error (.failedToFetchPage m)) := by
  intro fuel
  induction fuel with
  | zero =>
    intro i acc hfuel hfail
    have hdrop : remainingPages.drop i = [] := List.drop_eq_nil_of_le (by omega)
    rw [hdrop] at hfail
    obtain ⟨n, hn, _⟩ := hfail
    cases hn
  | succ fuel ih =>
    intro i acc hfuel hfail
    obtain ⟨n, hn, hnfail⟩ := hfail
    have hi : i < remainingPages.length := by
      by_contra hcon
      rw [List.drop_eq_nil_of_le (by omega)] at hn
      cases hn
    unfold fetchBatches
    simp only [if_pos hi]
    rcases promiseAll_map_fetchPage_cases upstream ((remainingPages.drop i).take batchSize)
      with ⟨m, hm, hmfail, herr⟩ | ⟨hall, results, hres⟩
    · rw [herr]
      exact ⟨m, List.mem_of_mem_drop (List.mem_of_mem_take hm), hmfail, rfl⟩
    · rw [hres]
      apply ih (i + batchSize) _ (by omega)
      refine ⟨n, ?_, hnfail⟩
      rw [← List.take_append_drop batchSize (remainingPages.drop i), List.mem_append] at hn
      rcases hn with hn | hn
      · rw [hall n hn] at hnfail
        cases hnfail
      · rw [List.drop_drop] at hn
        exact hn

/-- C11: when the first page announces N pages and the request for some page
k in 1..N returns a non-success status, fetchInventoryData (given fuel for its
loop) ends in an error and hands back no records, whatever the other pages
answer: the error is that of the first request when page 1 fails, and
otherwise that of a failing page among 2..N. -/
theorem C11_failed_page_fails_fetch {α : Type} (upstream : ℕ → Response α) (N k fuel : ℕ)
    (hheader : (upstream 1).totalPagesCount = some (.int (N : ℤ)))
    (hk : 1 ≤ k) (hkN : k ≤ N)
    (hfail : (upstream k).ok = false)
    (hfuel : N - 1 ≤ fuel) :
    (∃ e, fetchInventoryData upstream fuel = some (.error e)) ∧
      ((upstream 1).ok = false →
        fetchInventoryData upstream fuel = some (.error .failedToFetchProducts)) ∧
      ((upstream 1).ok = true →
        ∃ m, 2 ≤ m ∧ m ≤ N ∧ (upstream m).ok = false ∧
          fetchInventoryData upstream fuel = some (.error (.failedToFetchPage m))) := by
  have hfirst : (upstream 1).ok = false →
      fetchInventoryData upstream fuel = some (.error .failedToFetchProducts) := by
    intro h1
    simp [fetchInventoryData, h1]
  have hrest : (upstream 1).ok = true →
      ∃ m, 2 ≤ m ∧ m ≤ N ∧ (upstream m).ok = false ∧
        fetchInventoryData upstream fuel = some (.error (.failedToFetchPage m)) := by
    intro h1
    have hk2 : 2 ≤ k := by
      rcases Nat.lt_or_ge 1 k with h | h
      · exact h
      · have : k = 1 := by omega
        rw [this, h1] at hfail
        cases hfail
    have hle : JsInt.leOne (.int (N : ℤ)) = false := by
      simp only [JsInt.leOne, decide_eq_false_iff_not]
      omega
    have hlen : JsInt.predLength (.int (N : ℤ)) = N - 1 := by
      simp only [JsInt.predLength]
      omega
    have hmem : k ∈ ((List.range (N - 1)).map fun i => i + 2).drop 0 := by
      rw [List.drop_zero]
      exact List.mem_map.mpr ⟨k - 2, List.mem_range.mpr (by omega), by omega⟩
    obtain ⟨m, hm, hmfail, herr⟩ :=
      fetchBatches_error upstream ((List.range (N - 1)).map fun i => i + 2) 5 (by decide)
        fuel 0 (upstream 1).json
        (by simp only [List.length_map, List.length_range]; omega) ⟨k, hmem, hfail⟩
    obtain ⟨i, hi, rfl⟩ := List.mem_map.mp hm
    have hi2 := List.mem_range.mp hi
    refine ⟨i + 2, by omega, by omega, hmfail, ?_⟩
    unfold fetchInventoryData
    simp only [h1, hheader, Option.getD_some, Bool.not_true, Bool.false_eq_true, if_false,
      hle, hlen]
    exact herr
  refine ⟨?_, hfirst, hrest⟩
  cases h1 : (upstream 1).ok with
  | false => exact ⟨_, hfirst h1⟩
  | true =>
    obtain ⟨m, _, _, _, h⟩ := hrest h1
    exact ⟨_, h⟩

/-- Witness for C11: page 9 of 12 fails after page 1 and the batch of pages
2..6 succeeded. -/
theorem C11_failed_page_fails_fetch_witness :
    (pageNineFails 1).totalPagesCount = some (.int ((12 : ℕ) : ℤ)) ∧ 1 ≤ 9 ∧ 9 ≤ 12 ∧
      (pageNineFails 9).ok = false ∧ 12 - 1 ≤ 11 ∧
      ∃ e, fetchInventoryData pageNineFails 11 = some (.error e) :=
  ⟨rfl, by decide, by decide, rfl, by decide,
    (C11_failed_page_fails_fetch pageNineFails 12 9 11 rfl (by decide) (by decide) rfl
      (by decide)).1⟩

/-! ## Status order and out-of-stock counts: claims C19 and C20 -/

theorem statusRank_specClassifyDays_mono (x y : ℚ) (hxy : x ≤ y) :
    statusRank (specClassifyDays x) ≤ statusRank (specClassifyDays y) := by
  unfold specClassifyDays
  split_ifs <;> simp [statusRank] <;> linarith

theorem one_le_statusRank_specClassifyDays (x : ℚ) :
    1 ≤ statusRank (specClassifyDays x) := by
  unfold specClassifyDays
  split_ifs <;> simp [statusRank]

theorem calculateStockStatus_zero (sold reorderLevel : ℚ) :
    calculateStockStatus 0 sold reorderLevel = "critical" := by
  simp [calculateStockStatus]

theorem calculateStockStatus_of_le (available sold reorderLevel : ℚ)
    (hne : available ≠ 0) (hle : available ≤ reorderLevel) :
    calculateStockStatus available sold reorderLevel = "low" := by
  simp [calculateStockStatus, hne, hle]

theorem one_le_statusRank_of_ne_zero (available sold reorderLevel : ℚ) (hne : available ≠ 0) :
    1 ≤ statusRank (calculateStockStatus available sold reorderLevel) := by
  rcases le_or_lt available reorderLevel with hle | hgt
  · rw [calculateStockStatus_of_le _ _ _ hne hle]
    simp [statusRank]
  · rw [calculateStockStatus_of_gt _ _ _ hne hgt]
    exact one_le_statusRank_specClassifyDays _

/-- C19: for sold ≥ 0 and every reorderLevel, `calculateStockStatus` is
monotone in available over available ≥ 0 for the order
critical < low < adequate < good < overstock. -/
theorem C19_status_monotone_in_available (a1 a2 sold reorderLevel : ℚ)
    (hsold : 0 ≤ sold) (h1 : 0 ≤ a1) (h12 : a1 ≤ a2) :
    statusRank (calculateStockStatus a1 sold reorderLevel) ≤
      statusRank (calculateStockStatus a2 sold reorderLevel) := by
  rcases eq_or_lt_of_le h1 with h0 | hpos
  · rw [← h0, calculateStockStatus_zero]
    simp [statusRank]
  · have hne1 : a1 ≠ 0 := ne_of_gt hpos
    have hne2 : a2 ≠ 0 := ne_of_gt (lt_of_lt_of_le hpos h12)
    rcases le_or_lt a1 reorderLevel with hle | hgt
    · rw [calculateStockStatus_of_le _ _ _ hne1 hle]
      have := one_le_statusRank_of_ne_zero a2 sold reorderLevel hne2
      simpa [statusRank] using this
    · rw [calculateStockStatus_of_gt _ _ _ hne1 hgt,
        calculateStockStatus_of_gt _ _ _ hne2 (lt_of_lt_of_le hgt h12)]
      apply statusRank_specClassifyDays_mono
      have hd : (0 : ℚ) < if sold = 0 then 1 / 10 else sold / 365 := by
        split_ifs with hs
        · norm_num
        · exact div_pos (lt_of_le_of_ne hsold (Ne.symm hs)) (by norm_num)
      exact div_le_div_of_nonneg_right h12 (le_of_lt hd)

/-- Witness for C19: 3 and 40 units at 365 sold, reorder level 5. -/
theorem C19_status_monotone_in_available_witness :
    (0 : ℚ) ≤ 365 ∧ (0 : ℚ) ≤ 3 ∧ (3 : ℚ) ≤ 40 ∧
      statusRank (calculateStockStatus 3 365 5) ≤ statusRank (calculateStockStatus 40 365 5) :=
  ⟨by norm_num, by norm_num, by norm_num,
    C19_status_monotone_in_available 3 40 365 5 (by norm_num) (by norm_num) (by norm_num)⟩

theorem calculateStockStatus_eq_critical_iff (available sold reorderLevel : ℚ) :
    calculateStockStatus available sold reorderLevel = "critical" ↔ available = 0 := by
  constructor
  · intro h
    by_contra hne
    have := one_le_statusRank_of_ne_zero available sold reorderLevel hne
    rw [h] at this
    simp [statusRank] at this
  · rintro rfl
    exact calculateStockStatus_zero _ _

theorem status_critical_iff_isOutOfStock (products : List RawProduct) (item : EnrichedItem)
    (hmem : item ∈ (processInventoryData products).products) :
    item.status = "critical" ↔ item.isOutOfStock = true := by
  obtain ⟨product, _, sellable, _, rfl⟩ := (mem_products_iff products item).mp hmem
  rw [processSellable_status, processSellable_isOutOfStock, calculateStockStatus_eq_critical_iff]
  simp

theorem outOfStockCount_eq (products : List RawProduct) :
    (processInventoryData products).outOfStockCount =
      ((processInventoryData products).products.filter
        fun p => decide (p.status = "critical")).length := by
  show ((processInventoryData products).products.filter fun p => p.isOutOfStock).length = _
  congr 1
  apply List.filter_congr
  intro item hitem
  have := status_critical_iff_isOutOfStock products item hitem
  by_cases h : item.status = "critical"
  · simp [h, this.mp h]
  · have hfalse : item.isOutOfStock = false := by
      cases hb : item.isOutOfStock with
      | false => rfl
      | true => exact absurd (this.mpr hb) h
    simp [h, hfalse]

/-- C20: a produced item has status "critical" exactly when isOutOfStock is
true; outOfStockCount is the number of "critical" items; the
"Critical (Out of Stock)" entry of stockStatusDistribution is present exactly
when outOfStockCount > 0, and its value is then outOfStockCount. -/
theorem C20_critical_iff_out_of_stock (products : List RawProduct) :
    (∀ item ∈ (processInventoryData products).products,
        (item.status = "critical" ↔ item.isOutOfStock = true)) ∧
      ((processInventoryData products).outOfStockCount =
        ((processInventoryData products).products.filter
          fun p => decide (p.status = "critical")).length) ∧
      ((∃ s ∈ (processInventoryData products).stockStatusDistribution,
          s.name = "Critical (Out of Stock)") ↔
        (processInventoryData products).outOfStockCount > 0) ∧
      (∀ s ∈ (processInventoryData products).stockStatusDistribution,
        s.name = "Critical (Out of Stock)" →
          s.value = (processInventoryData products).outOfStockCount) := by
  refine ⟨fun item hitem => status_critical_iff_isOutOfStock products item hitem,
    outOfStockCount_eq products, ?_, ?_⟩
  · rw [outOfStockCount_eq]
    simp only [processInventoryData, List.mem_filter, List.mem_cons, List.mem_singleton,
      List.not_mem_nil, or_false, decide_eq_true_eq]
    constructor
    · rintro ⟨s, ⟨hs | hs | hs | hs | hs, hpos⟩, hname⟩ <;> rw [hs] at hname hpos <;>
        first
          | exact hpos
          | simp at hname
    · intro hpos
      exact ⟨_, ⟨Or.inl rfl, hpos⟩, rfl⟩
  · rw [outOfStockCount_eq]
    simp only [processInventoryData, List.mem_filter, List.mem_cons, List.mem_singleton,
      List.not_mem_nil, or_false, decide_eq_true_eq]
    rintro s ⟨hs | hs | hs | hs | hs, _⟩ hname <;> rw [hs] at hname ⊢ <;>
      first
        | rfl
        | simp at hname

/-! ## Cache: invariant of the reachable states -/

theorem count_eraseIdx_add {α : Type} [DecidableEq α] (a x : α) :
    ∀ (l : List α) (i : ℕ), l[i]? = some x →
      (l.eraseIdx i).count a + (if x = a then 1 else 0) = l.count a := by
  intro l
  induction l with
  | nil => intro i h; simp at h
  | cons b rest ih =>
    intro i h
    cases i with
    | zero =>
      simp only [List.getElem?_cons_zero, Option.some.injEq] at h
      subst h
      simp only [List.eraseIdx_cons_zero, List.count_cons, beq_iff_eq]
    | succ j =>
      simp only [List.getElem?_cons_succ] at h
      simp only [List.eraseIdx_cons_succ, List.count_cons, beq_iff_eq]
      have := ih j h
      omega

theorem cacheInvariant_initial : CacheInvariant initialServer := by
  refine ⟨by norm_num [initialServer, inventoryCache], ?_, ?_⟩
  · simp [initialServer, inventoryCache]
  · simp [initialServer, inventoryCache, revalidationsInFlight]

theorem revalidateCache_of_flag (s : Server) (h : s.cache.isRevalidating = true) :
    revalidateCache s = s := by
  simp [revalidateCache, h]

theorem revalidateCache_of_not_flag (s : Server) (h : s.cache.isRevalidating = false) :
    revalidateCache s =
      { cache := { s.cache with isRevalidating := true }
        pending := s.pending ++ [Pending.revalidateCache]
        fetchCalls := s.fetchCalls + 1 } := by
  simp [revalidateCache, h]

theorem revalidateCache_flag (s : Server) : (revalidateCache s).cache.isRevalidating = true := by
  cases h : s.cache.isRevalidating with
  | true => rw [revalidateCache_of_flag s h, h]
  | false => rw [revalidateCache_of_not_flag s h]

theorem revalidateCache_data (s : Server) :
    (revalidateCache s).cache.data = s.cache.data ∧
      (revalidateCache s).cache.timestamp = s.cache.timestamp ∧
      (revalidateCache s).cache.ttl = s.cache.ttl := by
  cases h : s.cache.isRevalidating with
  | true => rw [revalidateCache_of_flag s h]; exact ⟨rfl, rfl, rfl⟩
  | false => rw [revalidateCache_of_not_flag s h]; exact ⟨rfl, rfl, rfl⟩

theorem cacheInvariant_revalidateCache (s : Server) (h : CacheInvariant s) :
    CacheInvariant (revalidateCache s) := by
  cases hflag : s.cache.isRevalidating with
  | true => rw [revalidateCache_of_flag s hflag]; exact h
  | false =>
    rw [revalidateCache_of_not_flag s hflag]
    obtain ⟨httl, hboth, hcount⟩ := h
    refine ⟨httl, hboth, ?_⟩
    rw [hflag] at hcount
    simp only [revalidationsInFlight, List.count_append, List.count_cons_self, List.count_nil,
      if_true] at hcount ⊢
    simp only [Bool.false_eq_true, if_false] at hcount
    omega

theorem getInventory_state_of_some (now : ℤ) (s : Server) (hdata : s.cache.data.isSome = true) :
    (getInventory now s).1 =
      if (decide (now - s.cache.timestamp.getD 0 ≥ s.cache.ttl) && !s.cache.isRevalidating) = true
      then revalidateCache s else s := by
  unfold getInventory
  rw [if_pos hdata]

theorem getInventory_of_none (now : ℤ) (s : Server) (hdata : s.cache.data = none) :
    getInventory now s =
      ({ cache := s.cache
         pending := s.pending ++ [Pending.getInventory now]
         fetchCalls := s.fetchCalls + 1 }, none) := by
  unfold getInventory
  rw [if_neg (by simp [hdata])]

theorem cacheInvariant_step (s : Server) (e : Event) (h : CacheInvariant s) :
    CacheInvariant (step s e) := by
  cases e with
  | get now =>
    show CacheInvariant (getInventory now s).1
    cases hdata : s.cache.data with
    | some d =>
      rw [getInventory_state_of_some now s (by simp [hdata])]
      split_ifs
      · exact cacheInvariant_revalidateCache s h
      · exact h
    | none =>
      rw [getInventory_of_none now s hdata]
      obtain ⟨httl, hboth, hcount⟩ := h
      refine ⟨httl, hboth, ?_⟩
      simp only [revalidationsInFlight] at hcount ⊢
      rw [List.count_append, hcount]
      simp
  | post => exact cacheInvariant_revalidateCache s h
  | tick now =>
    show CacheInvariant (autoRevalidate now s)
    unfold autoRevalidate
    split_ifs
    · exact cacheInvariant_revalidateCache s h
    · exact h
  | settle i outcome now =>
    obtain ⟨httl, hboth, hcount⟩ := h
    simp only [step]
    cases hp : s.pending[i]? with
    | none => exact ⟨httl, hboth, hcount⟩
    | some p =>
      have herase := count_eraseIdx_add Pending.revalidateCache p s.pending i hp
      cases p with
      | revalidateCache =>
        simp only [if_true] at herase
        have hzero : (s.pending.eraseIdx i).count Pending.revalidateCache = 0 := by
          simp only [revalidationsInFlight] at hcount
          split_ifs at hcount <;> omega
        cases outcome with
        | resolved data =>
          exact ⟨httl, by simp [revalidateCacheResume],
            by simp [revalidateCacheResume, revalidationsInFlight, hzero]⟩
        | rejected err =>
          exact ⟨httl, hboth, by simp [revalidateCacheResume, revalidationsInFlight, hzero]⟩
        | malformed =>
          exact ⟨httl, hboth, by simp [revalidateCacheResume, revalidationsInFlight, hzero]⟩
      | getInventory entered =>
        have hsame : (s.pending.eraseIdx i).count Pending.revalidateCache =
            s.pending.count Pending.revalidateCache := by
          simpa using herase
        cases outcome with
        | resolved data =>
          refine ⟨httl, by simp [getInventoryResume], ?_⟩
          simp only [revalidationsInFlight, getInventoryResume, hsame]
          exact hcount
        | rejected err =>
          refine ⟨httl, hboth, ?_⟩
          simp only [revalidationsInFlight, getInventoryResume, hsame]
          exact hcount
        | malformed =>
          refine ⟨httl, hboth, ?_⟩
          simp only [revalidationsInFlight, getInventoryResume, hsame]
          exact hcount

theorem cacheInvariant_foldl (events : List Event) :
    ∀ s : Server, CacheInvariant s → CacheInvariant (events.foldl step s) := by
  induction events with
  | nil => intro s h; exact h
  | cons e rest ih => intro s h; exact ih _ (cacheInvariant_step s e h)

theorem cacheInvariant_of_reachable (s : Server) (h : Reachable s) : CacheInvariant s := by
  obtain ⟨events, rfl⟩ := h
  exact cacheInvariant_foldl events _ cacheInvariant_initial

theorem flag_iff_revalidation_pending (s : Server) (h : CacheInvariant s) :
    s.cache.isRevalidating = true ↔ Pending.revalidateCache ∈ s.pending := by
  have hcount := h.2.2
  simp only [revalidationsInFlight] at hcount
  constructor
  · intro hflag
    rw [hflag] at hcount
    exact List.count_pos_iff.mp (by simp only [if_true] at hcount; omega)
  · intro hmem
    have hpos := List.count_pos_iff.mpr hmem
    cases hflag : s.cache.isRevalidating with
    | true => rfl
    | false =>
      rw [hflag] at hcount
      simp only [Bool.false_eq_true, if_false] at hcount
      omega

/-! ## Cache: claims C12 to C18 -/

/-- C12: in a state whose REVALIDATING flag is true, `revalidateCache()`
returns without calling the fetcher and leaves data, timestamp, ttl and the
flag unchanged (the whole state is unchanged); two calls in a row from a state
with the flag false call the fetcher once; and in every reachable state with a
revalidation in flight a further call does nothing. -/
theorem C12_revalidate_single_flight (s : Server) (hflag : s.cache.isRevalidating = true) :
    revalidateCache s = s ∧
      (revalidateCache s).fetchCalls = s.fetchCalls ∧
      (∀ s0 : Server, s0.cache.isRevalidating = false →
        (revalidateCache (revalidateCache s0)).fetchCalls = s0.fetchCalls + 1 ∧
          (revalidateCache (revalidateCache s0)).pending =
            s0.pending ++ [Pending.revalidateCache]) ∧
      (∀ s1 : Server, Reachable s1 → Pending.revalidateCache ∈ s1.pending →
        revalidateCache s1 = s1) := by
  have hsame := revalidateCache_of_flag s hflag
  refine ⟨hsame, by rw [hsame], ?_, ?_⟩
  · intro s0 h0
    rw [revalidateCache_of_flag _ (revalidateCache_flag s0), revalidateCache_of_not_flag s0 h0]
    exact ⟨rfl, rfl⟩
  · intro s1 hreach hmem
    exact revalidateCache_of_flag s1
      ((flag_iff_revalidation_pending s1 (cacheInvariant_of_reachable s1 hreach)).mpr hmem)

/-- Witness for C12: the state right after a first `revalidateCache()`. -/
theorem C12_revalidate_single_flight_witness :
    (revalidateCache initialServer).cache.isRevalidating = true ∧
      revalidateCache (revalidateCache initialServer) = revalidateCache initialServer :=
  ⟨rfl, (C12_revalidate_single_flight (revalidateCache initialServer) rfl).1⟩

/-- C13 (as stated, refuted): two `GET /api/inventory` requests arriving at an
empty cache leave two fetches in flight with the flag false, and the first to
settle writes snapshot and timestamp while the flag is false. -/
theorem C13_counterexample :
    Reachable (run [Event.get 0, Event.get 1]) ∧
      (run [Event.get 0, Event.get 1]).pending =
        [Pending.getInventory 0, Pending.getInventory 1] ∧
      (run [Event.get 0, Event.get 1]).fetchCalls = 2 ∧
      (run [Event.get 0, Event.get 1]).cache.isRevalidating = false ∧
      (run [Event.get 0, Event.get 1]).cache.data = none ∧
      (step (run [Event.get 0, Event.get 1]) (Event.settle 0 (.resolved []) 5)).cache.data =
        some (processInventoryData []) ∧
      (step (run [Event.get 0, Event.get 1]) (Event.settle 0 (.resolved []) 5)).cache.timestamp =
        some 0 ∧
      (step (run [Event.get 0, Event.get 1])
        (Event.settle 0 (.resolved []) 5)).cache.isRevalidating = false :=
  ⟨⟨_, rfl⟩, rfl, rfl, rfl, rfl, rfl, rfl, rfl⟩

/-- C13 (amended): in every reachable state, under any interleaving of
requests, manual triggers, timer ticks and fetch completions, at most one
`revalidateCache()` fetch is in flight, the flag is true exactly when one is
in flight, and the completion of a `revalidateCache()` finds the flag set and
clears it. -/
theorem C13_one_revalidation_in_flight (s : Server) (hreach : Reachable s) :
    revalidationsInFlight s ≤ 1 ∧
      (s.cache.isRevalidating = true ↔ Pending.revalidateCache ∈ s.pending) ∧
      (s.cache.isRevalidating = true ↔ revalidationsInFlight s = 1) ∧
      (∀ (i : ℕ) (outcome : FetchOutcome) (now : ℤ),
        s.pending[i]? = some Pending.revalidateCache →
          s.cache.isRevalidating = true ∧
            (step s (Event.settle i outcome now)).cache.isRevalidating = false ∧
            revalidationsInFlight (step s (Event.settle i outcome now)) = 0) := by
  have hinv := cacheInvariant_of_reachable s hreach
  have hiff := flag_iff_revalidation_pending s hinv
  have hcount := hinv.2.2
  refine ⟨?_, hiff, ?_, ?_⟩
  · rw [hcount]
    split_ifs <;> omega
  · rw [hcount]
    cases s.cache.isRevalidating <;> simp
  · intro i outcome now hp
    have hflag : s.cache.isRevalidating = true := hiff.mpr (List.mem_iff_getElem?.mpr ⟨i, hp⟩)
    have hnext := cacheInvariant_step s (Event.settle i outcome now) hinv
    have hcleared : (step s (Event.settle i outcome now)).cache.isRevalidating = false := by
      simp only [step, hp]
      cases outcome <;> rfl
    refine ⟨hflag, hcleared, ?_⟩
    rw [hnext.2.2, hcleared]
    simp

/-- Witness for C13 (amended): a populated cache after a manual trigger. -/
theorem C13_one_revalidation_in_flight_witness :
    Reachable (run [Event.get 0, Event.settle 0 (.resolved []) 5, Event.post]) ∧
      revalidationsInFlight
        (run [Event.get 0, Event.settle 0 (.resolved []) 5, Event.post]) ≤ 1 ∧
      (run [Event.get 0, Event.settle 0 (.resolved []) 5, Event.post]).cache.isRevalidating =
        true :=
  ⟨⟨_, rfl⟩, (C13_one_revalidation_in_flight _ ⟨_, rfl⟩).1,
    (C13_one_revalidation_in_flight
      (run [Event.get 0, Event.settle 0 (.resolved []) 5, Event.post]) ⟨_, rfl⟩).2.1.mpr
      (by decide)⟩

/-- C14: from a state with REVALIDATING false, a `revalidateCache()` whose
fetch or aggregation fails ends with the cache it started from (same data,
timestamp, ttl, flag false) and its call no longer in flight, and its promise
resolves, so no error reaches its caller; and a `GET /api/inventory` on an
empty cache whose fetch or aggregation fails answers with an error and leaves
the cache as it was, empty. -/
theorem C14_failure_leaves_cache (s : Server) (outcome : FetchOutcome) (now : ℤ)
    (hflag : s.cache.isRevalidating = false) (hfail : outcome.isFailure = true) :
    (step (revalidateCache s) (Event.settle s.pending.length outcome now)).cache = s.cache ∧
      (step (revalidateCache s) (Event.settle s.pending.length outcome now)).pending =
        s.pending ∧
      (revalidateCacheResume outcome now (revalidateCache s).cache).2 = none ∧
      (∀ entered : ℤ, s.cache.data = none →
        (getInventory entered s).2 = none ∧
          (step (getInventory entered s).1
            (Event.settle s.pending.length outcome now)).cache = s.cache ∧
          (step (getInventory entered s).1
            (Event.settle s.pending.length outcome now)).cache.data = none ∧
          ∃ error,
            (getInventoryResume entered outcome (getInventory entered s).1.cache).2 =
              GetReply.failed error) := by
  have hget : ∀ (l : List Pending) (p : Pending), (l ++ [p])[l.length]? = some p := by
    intro l p
    simp
  have herase : ∀ (l : List Pending) (p : Pending), (l ++ [p]).eraseIdx l.length = l := by
    intro l p
    rw [List.eraseIdx_append_of_length_le (le_refl _)]
    simp
  refine ⟨?_, ?_, ?_, ?_⟩
  · rw [revalidateCache_of_not_flag s hflag]
    simp only [step, hget]
    cases outcome with
    | resolved data => cases hfail
    | rejected err =>
      simp only [revalidateCacheResume]
      rw [← hflag]
    | malformed =>
      simp only [revalidateCacheResume]
      rw [← hflag]
  · rw [revalidateCache_of_not_flag s hflag]
    simp only [step, hget, herase]
  · cases outcome with
    | resolved data => cases hfail
    | rejected err => rfl
    | malformed => rfl
  · intro entered hdata
    rw [getInventory_of_none entered s hdata]
    have hcache : (step
        { cache := s.cache, pending := s.pending ++ [Pending.getInventory entered],
          fetchCalls := s.fetchCalls + 1 }
        (Event.settle s.pending.length outcome now)).cache = s.cache := by
      simp only [step, hget]
      cases outcome with
      | resolved data => cases hfail
      | rejected err => rfl
      | malformed => rfl
    refine ⟨rfl, hcache, by rw [hcache]; exact hdata, ?_⟩
    cases outcome with
    | resolved data => cases hfail
    | rejected err => exact ⟨_, rfl⟩
    | malformed => exact ⟨_, rfl⟩

/-- Witness for C14: the first page of the fetch fails on an empty cache. -/
theorem C14_failure_leaves_cache_witness :
    initialServer.cache.isRevalidating = false ∧
      (FetchOutcome.rejected FetchError.failedToFetchProducts).isFailure = true ∧
      (step (revalidateCache initialServer)
        (Event.settle initialServer.pending.length
          (FetchOutcome.rejected FetchError.failedToFetchProducts) 9)).cache =
        initialServer.cache :=
  ⟨rfl, rfl,
    (C14_failure_leaves_cache initialServer
      (FetchOutcome.rejected FetchError.failedToFetchProducts) 9 rfl rfl).1⟩

theorem getInventory_reply_of_some (now : ℤ) (s : Server) (hdata : s.cache.data.isSome = true) :
    (getInventory now s).2 =
      some (GetReply.cached (getInventory now s).1.cache.data
        (decide (now - s.cache.timestamp.getD 0 ≥ s.cache.ttl))
        (getInventory now s).1.cache.isRevalidating
        ((getInventory now s).1.cache.timestamp.getD 0)
        (mathRound (((now - s.cache.timestamp.getD 0 : ℤ) : ℚ) / 1000))) := by
  unfold getInventory
  rw [if_pos hdata]

theorem getInventory_data (now : ℤ) (s : Server) (hdata : s.cache.data.isSome = true) :
    (getInventory now s).1.cache.data = s.cache.data ∧
      (getInventory now s).1.cache.timestamp = s.cache.timestamp ∧
      (getInventory now s).1.cache.ttl = s.cache.ttl := by
  rw [getInventory_state_of_some now s hdata]
  split_ifs
  · exact revalidateCache_data s
  · exact ⟨rfl, rfl, rfl⟩

/-- C15: for a populated cache with timestamp t in a reachable state, the
answer of a `GET /api/inventory` at clock time `now` carries the stored
snapshot and reports stale = true exactly when now - t ≥ 14,400,000 ms
(240 minutes); a request at time t reports stale false, a request at
t + 14,400,000 reports stale true, and a request at the instant a
revalidation succeeded reports stale false. -/
theorem C15_stale_iff_ttl_elapsed (s : Server) (d : Snapshot) (t now : ℤ)
    (hreach : Reachable s) (hdata : s.cache.data = some d)
    (hts : s.cache.timestamp = some t) :
    s.cache.ttl = 240 * 60 * 1000 ∧
      (∃ revalidating age, (getInventory now s).2 =
        some (GetReply.cached (some d) (decide (now - t ≥ 14400000)) revalidating t age)) ∧
      (∃ revalidating age, (getInventory t s).2 =
        some (GetReply.cached (some d) false revalidating t age)) ∧
      (∃ revalidating age, (getInventory (t + 14400000) s).2 =
        some (GetReply.cached (some d) true revalidating t age)) ∧
      (∀ (i : ℕ) (data : List RawProduct) (done : ℤ),
        s.pending[i]? = some Pending.revalidateCache →
          ∃ revalidating age,
            (getInventory done (step s (Event.settle i (.resolved data) done))).2 =
              some (GetReply.cached (some (processInventoryData data)) false revalidating
                done age)) := by
  have httl := (cacheInvariant_of_reachable s hreach).1
  have hsome : s.cache.data.isSome = true := by simp [hdata]
  have hreply : ∀ at_ : ℤ, ∃ revalidating age, (getInventory at_ s).2 =
      some (GetReply.cached (some d) (decide (at_ - t ≥ 14400000)) revalidating t age) := by
    intro at_
    refine ⟨(getInventory at_ s).1.cache.isRevalidating,
      mathRound (((at_ - s.cache.timestamp.getD 0 : ℤ) : ℚ) / 1000), ?_⟩
    rw [getInventory_reply_of_some at_ s hsome, (getInventory_data at_ s hsome).1,
      (getInventory_data at_ s hsome).2.1, hdata, hts, httl]
    rfl
  refine ⟨by rw [httl]; norm_num, hreply now, ?_, ?_, ?_⟩
  · obtain ⟨r, age, h⟩ := hreply t
    refine ⟨r, age, ?_⟩
    rw [h]
    simp
  · obtain ⟨r, age, h⟩ := hreply (t + 14400000)
    refine ⟨r, age, ?_⟩
    rw [h]
    simp
  · intro i data done hp
    have hnext : (step s (Event.settle i (.resolved data) done)).cache =
        { s.cache with
          data := some (processInventoryData data)
          timestamp := some done
          isRevalidating := false } := by
      simp only [step, hp, revalidateCacheResume]
    have hsome2 : (step s (Event.settle i (.resolved data) done)).cache.data.isSome = true := by
      rw [hnext]
      rfl
    refine ⟨(getInventory done (step s (Event.settle i (.resolved data) done))).1.cache.isRevalidating,
      mathRound (((done -
        (step s (Event.settle i (.resolved data) done)).cache.timestamp.getD 0 : ℤ) : ℚ) / 1000),
      ?_⟩
    rw [getInventory_reply_of_some done _ hsome2, (getInventory_data done _ hsome2).1,
      (getInventory_data done _ hsome2).2.1, hnext]
    simp [httl]

/-- Witness for C15: a cache filled by a first request entered at time 0. -/
theorem C15_stale_iff_ttl_elapsed_witness :
    Reachable (run [Event.get 0, Event.settle 0 (.resolved []) 5]) ∧
      (run [Event.get 0, Event.settle 0 (.resolved []) 5]).cache.data =
        some (processInventoryData []) ∧
      (run [Event.get 0, Event.settle 0 (.resolved []) 5]).cache.timestamp = some 0 ∧
      ∃ revalidating age,
        (getInventory (0 + 14400000) (run [Event.get 0, Event.settle 0 (.resolved []) 5])).2 =
          some (GetReply.cached (some (processInventoryData [])) true revalidating 0 age) :=
  ⟨⟨_, rfl⟩, rfl, rfl,
    (C15_stale_iff_ttl_elapsed (run [Event.get 0, Event.settle 0 (.resolved []) 5])
      (processInventoryData []) 0 0 ⟨_, rfl⟩ rfl rfl).2.2.2.1⟩

theorem getInventory_state_of_flag (now : ℤ) (s : Server) (hdata : s.cache.data.isSome = true)
    (hflag : s.cache.isRevalidating = true) : (getInventory now s).1 = s := by
  rw [getInventory_state_of_some now s hdata, hflag]
  simp

theorem foldl_get_of_flag (nows : List ℤ) (s : Server) (hdata : s.cache.data.isSome = true)
    (hflag : s.cache.isRevalidating = true) : (nows.map Event.get).foldl step s = s := by
  induction nows with
  | nil => rfl
  | cons n rest ih =>
    rw [List.map_cons, List.foldl_cons]
    show List.foldl step (getInventory n s).1 _ = s
    rw [getInventory_state_of_flag n s hdata hflag]
    exact ih

/-- C16: on a populated cache, `GET /api/inventory` answers with the stored
snapshot and leaves data and timestamp unchanged; it starts a revalidation
(sets REVALIDATING and calls the fetcher once) when the cache is stale and
REVALIDATING was false, and changes nothing otherwise; hence a non-empty
sequence of such requests on a stale cache, with no completion in between,
starts exactly one revalidation when REVALIDATING was false at its start and
none when one was already running, and leaves REVALIDATING set. -/
theorem C16_get_serves_and_revalidates_once (s : Server) (d : Snapshot) (t now : ℤ)
    (hdata : s.cache.data = some d) (hts : s.cache.timestamp = some t) :
    (∃ stale revalidating age, (getInventory now s).2 =
        some (GetReply.cached (some d) stale revalidating t age)) ∧
      (getInventory now s).1.cache.data = s.cache.data ∧
      (getInventory now s).1.cache.timestamp = s.cache.timestamp ∧
      (now - t ≥ s.cache.ttl ∧ s.cache.isRevalidating = false →
        (getInventory now s).1 =
          { cache := { s.cache with isRevalidating := true }
            pending := s.pending ++ [Pending.revalidateCache]
            fetchCalls := s.fetchCalls + 1 }) ∧
      (¬ (now - t ≥ s.cache.ttl ∧ s.cache.isRevalidating = false) →
        (getInventory now s).1 = s) ∧
      (∀ nows : List ℤ, nows ≠ [] → (∀ n ∈ nows, n - t ≥ s.cache.ttl) →
        ((nows.map Event.get).foldl step s).fetchCalls =
            s.fetchCalls + (if s.cache.isRevalidating then 0 else 1) ∧
          revalidationsInFlight ((nows.map Event.get).foldl step s) =
            revalidationsInFlight s + (if s.cache.isRevalidating then 0 else 1) ∧
          ((nows.map Event.get).foldl step s).cache.isRevalidating = true ∧
          ((nows.map Event.get).foldl step s).cache.data = s.cache.data ∧
          ((nows.map Event.get).foldl step s).cache.timestamp = s.cache.timestamp) := by
  have hsome : s.cache.data.isSome = true := by simp [hdata]
  have hkeep := getInventory_data now s hsome
  have hstart : ∀ n : ℤ, n - t ≥ s.cache.ttl → s.cache.isRevalidating = false →
      (getInventory n s).1 =
        { cache := { s.cache with isRevalidating := true }
          pending := s.pending ++ [Pending.revalidateCache]
          fetchCalls := s.fetchCalls + 1 } := by
    intro n hstale hflag
    rw [getInventory_state_of_some n s hsome, hts, hflag, revalidateCache_of_not_flag s hflag]
    simp [hstale]
  refine ⟨?_, hkeep.1, hkeep.2.1, fun h => hstart now h.1 h.2, ?_, ?_⟩
  · refine ⟨decide (now - s.cache.timestamp.getD 0 ≥ s.cache.ttl),
      (getInventory now s).1.cache.isRevalidating,
      mathRound (((now - s.cache.timestamp.getD 0 : ℤ) : ℚ) / 1000), ?_⟩
    rw [getInventory_reply_of_some now s hsome, hkeep.1, hkeep.2.1, hdata, hts]
    rfl
  · intro hnot
    rw [getInventory_state_of_some now s hsome, hts]
    have hcond : (decide (now - (some t).getD 0 ≥ s.cache.ttl) && !s.cache.isRevalidating) =
        false := by
      cases hflag : s.cache.isRevalidating with
      | true => simp
      | false =>
        have : ¬ now - t ≥ s.cache.ttl := fun h => hnot ⟨h, hflag⟩
        simp [this]
    rw [hcond]
    simp
  · intro nows hne hstale
    cases hflag : s.cache.isRevalidating with
    | true =>
      rw [foldl_get_of_flag nows s hsome hflag]
      simp [hflag]
    | false =>
      cases nows with
      | nil => exact absurd rfl hne
      | cons n rest =>
        rw [List.map_cons, List.foldl_cons,
          show step s (Event.get n) = (getInventory n s).1 from rfl,
          hstart n (hstale n (List.mem_cons_self _ _)) hflag,
          foldl_get_of_flag rest _ (by simp [hdata]) rfl]
        simp [revalidationsInFlight, List.count_append]

/-- Witness for C16: three requests on a stale cache start one revalidation. -/
theorem C16_get_serves_and_revalidates_once_witness :
    (run [Event.get 0, Event.settle 0 (.resolved []) 5]).cache.data =
        some (processInventoryData []) ∧
      (run [Event.get 0, Event.settle 0 (.resolved []) 5]).cache.timestamp = some 0 ∧
      (([14400000, 14400001, 14500000].map Event.get).foldl step
        (run [Event.get 0, Event.settle 0 (.resolved []) 5])).fetchCalls =
        (run [Event.get 0, Event.settle 0 (.resolved []) 5]).fetchCalls + 1 :=
  ⟨rfl, rfl,
    ((C16_get_serves_and_revalidates_once (run [Event.get 0, Event.settle 0 (.resolved []) 5])
      (processInventoryData []) 0 0 rfl rfl).2.2.2.2.2 [14400000, 14400001, 14500000]
      (by decide) (by decide)).1⟩

/-- C17: in every reachable state the snapshot and its timestamp are present
together or absent together, and every segment of execution either leaves
both as they were or is the completion of a successful fetch, which writes both
in that one segment: the new snapshot together with the completion time when
`revalidateCache` completes, and together with the time read on entry when the
`GET /api/inventory` handler completes. -/
theorem C17_snapshot_and_timestamp_together (s : Server) (hreach : Reachable s) :
    (s.cache.data = none ↔ s.cache.timestamp = none) ∧
      ∀ e : Event,
        ((step s e).cache.data = s.cache.data ∧
          (step s e).cache.timestamp = s.cache.timestamp) ∨
        ∃ (i : ℕ) (data : List RawProduct) (now : ℤ),
          e = Event.settle i (.resolved data) now ∧
            (step s e).cache.data = some (processInventoryData data) ∧
            ((s.pending[i]? = some Pending.revalidateCache ∧
                (step s e).cache.timestamp = some now) ∨
              ∃ entered : ℤ, s.pending[i]? = some (Pending.getInventory entered) ∧
                (step s e).cache.timestamp = some entered) := by
  refine ⟨(cacheInvariant_of_reachable s hreach).2.1, ?_⟩
  intro e
  cases e with
  | get now =>
    left
    show (getInventory now s).1.cache.data = _ ∧ (getInventory now s).1.cache.timestamp = _
    cases hdata : s.cache.data with
    | some d =>
      have h := getInventory_data now s (by simp [hdata])
      exact ⟨h.1.trans hdata, h.2.1⟩
    | none =>
      rw [getInventory_of_none now s hdata]
      exact ⟨hdata, rfl⟩
  | post =>
    left
    exact ⟨(revalidateCache_data s).1, (revalidateCache_data s).2.1⟩
  | tick now =>
    left
    show (autoRevalidate now s).cache.data = _ ∧ (autoRevalidate now s).cache.timestamp = _
    unfold autoRevalidate
    split_ifs
    · exact ⟨(revalidateCache_data s).1, (revalidateCache_data s).2.1⟩
    · exact ⟨rfl, rfl⟩
  | settle i outcome now =>
    cases hp : s.pending[i]? with
    | none =>
      left
      simp [step, hp]
    | some p =>
      cases p with
      | revalidateCache =>
        cases outcome with
        | resolved data =>
          right
          refine ⟨i, data, now, rfl, ?_, Or.inl ⟨hp, ?_⟩⟩ <;>
            simp only [step, hp, revalidateCacheResume]
        | rejected err =>
          left
          simp [step, hp, revalidateCacheResume]
        | malformed =>
          left
          simp [step, hp, revalidateCacheResume]
      | getInventory entered =>
        cases outcome with
        | resolved data =>
          right
          refine ⟨i, data, now, rfl, ?_, Or.inr ⟨entered, hp, ?_⟩⟩ <;>
            simp only [step, hp, getInventoryResume]
        | rejected err =>
          left
          simp [step, hp, getInventoryResume]
        | malformed =>
          left
          simp [step, hp, getInventoryResume]

/-- Witness for C17: the cache after a first request has been answered. -/
theorem C17_snapshot_and_timestamp_together_witness :
    Reachable (run [Event.get 0, Event.settle 0 (.resolved []) 5]) ∧
      ((run [Event.get 0, Event.settle 0 (.resolved []) 5]).cache.data = none ↔
        (run [Event.get 0, Event.settle 0 (.resolved []) 5]).cache.timestamp = none) :=
  ⟨⟨_, rfl⟩,
    (C17_snapshot_and_timestamp_together
      (run [Event.get 0, Event.settle 0 (.resolved []) 5]) ⟨_, rfl⟩).1⟩

/-- C18: the answer of `POST /api/inventory/revalidate` reports the value of
the REVALIDATING flag right after the trigger, which is true in every state;
the handler calls the fetcher exactly when the flag was false before the call
(and changes nothing when it was true), and it leaves data and timestamp as
they were. -/
theorem C18_manual_trigger_reports_flag (s : Server) :
    (postRevalidate s).2.isRevalidating = (postRevalidate s).1.cache.isRevalidating ∧
      (postRevalidate s).2.isRevalidating = true ∧
      (postRevalidate s).1.fetchCalls =
        s.fetchCalls + (if s.cache.isRevalidating then 0 else 1) ∧
      ((postRevalidate s).1.fetchCalls = s.fetchCalls + 1 ↔ s.cache.isRevalidating = false) ∧
      (s.cache.isRevalidating = true → (postRevalidate s).1 = s) ∧
      (postRevalidate s).1.cache.data = s.cache.data ∧
      (postRevalidate s).1.cache.timestamp = s.cache.timestamp := by
  have hstate : (postRevalidate s).1 = revalidateCache s := rfl
  have hreply : (postRevalidate s).2.isRevalidating = (revalidateCache s).cache.isRevalidating :=
    rfl
  rw [hstate, hreply]
  refine ⟨rfl, revalidateCache_flag s, ?_, ?_, fun h => revalidateCache_of_flag s h,
    (revalidateCache_data s).1, (revalidateCache_data s).2.1⟩
  · cases hflag : s.cache.isRevalidating with
    | true => rw [revalidateCache_of_flag s hflag]; simp
    | false => rw [revalidateCache_of_not_flag s hflag]; simp
  · cases hflag : s.cache.isRevalidating with
    | true => rw [revalidateCache_of_flag s hflag]; simp
    | false => rw [revalidateCache_of_not_flag s hflag]; simp

end Inventory
